import Mathlib

/-!
Verification of the ranking engine of `backend.py` (recommendInternship,
preprocess, get_top_contributing_terms) against its specification.

Modelling conventions.
* Python numbers are modelled by the rationals; the arithmetic that the
  engine performs on them (+, *, /, min, max, comparisons) is exact.
* Two quantities of the TF-IDF pipeline are transcendental and therefore
  cannot be rational-valued: the idf weight `ln((1+n)/(1+df)) + 1` and the
  reciprocal l2 norm `1/sqrt(sum of squares)` used for row normalisation.
  They are abstracted as parameters `idf : Nat -> Nat -> Rat` (indexed by
  corpus size and document frequency) and `nf : List Rat -> Rat` (the
  reciprocal norm of a vector).  Every statement proved below is
  independent of the value of these parameters.
* The WordNet lemmatizer and the Punkt word tokenizer are external nltk
  resources, not code of this repository.  The lemmatizer is abstracted as
  a parameter `lem : List Char -> List Char`; the tokenizer is modelled as
  whitespace splitting, which is its behaviour on the whitespace-separated
  alphanumeric token sequences relevant here.
* Python exceptions (TypeError on arithmetic with a non-numeric value,
  the sklearn ValueError on an empty vocabulary) are modelled with `Except`.
* The tie-breaking draws of `random.random()` (one per list element, in
  list order, taken when `sorted` computes the decorated keys) are made
  explicit as a parameter `draws : Nat -> Rat`.
-/

set_option maxRecDepth 4000

/-! ### Characters, tokens and splitting -/

/-- Splits a character list into the (possibly empty) runs of characters
satisfying `p`; the runs are separated by the characters violating `p`. -/
def splitRunsAux (p : Char → Bool) : List Char → List (List Char)
  | [] => [[]]
  | c :: cs =>
    match splitRunsAux p cs with
    | [] => [[c]]
    | w :: ws => if p c then (c :: w) :: ws else [] :: w :: ws

/-- Maximal nonempty runs of characters satisfying `p`. -/
def splitRuns (p : Char → Bool) (cs : List Char) : List (List Char) :=
  (splitRunsAux p cs).filter (fun w => !w.isEmpty)

/-- Python `str.isalnum`: nonempty and every character alphanumeric. -/
def pyIsAlnum (w : List Char) : Bool :=
  !w.isEmpty && w.all Char.isAlphanum

/-- Python `str.isdigit`: nonempty and every character a digit. -/
def pyIsDigit (w : List Char) : Bool :=
  !w.isEmpty && w.all Char.isDigit

/-- Joins words with single spaces (Python `' '.join`). -/
def joinWords : List (List Char) → List Char
  | [] => []
  | [w] => w
  | w :: ws => w ++ ' ' :: joinWords ws

/-! ### The nltk English stopword set

The nltk stopword list is external data.  The contraction entries of the
list (contracted word forms containing an apostrophe) and the single-letter entries are
irrelevant to every statement below: the `isalnum` check of `preprocess`
rejects any token containing an apostrophe before the stopword test is
reached, and the length filter removes tokens of length at most 2.  The
alphabetic entries are listed. -/
def stopWords : List String :=
  ["i", "me", "my", "myself", "we", "our", "ours", "ourselves", "you",
   "your", "yours", "yourself", "yourselves", "he", "him", "his",
   "himself", "she", "her", "hers", "herself", "it", "its", "itself",
   "they", "them", "their", "theirs", "themselves", "what", "which",
   "who", "whom", "this", "that", "these", "those", "am", "is", "are",
   "was", "were", "be", "been", "being", "have", "has", "had", "having",
   "do", "does", "did", "doing", "a", "an", "the", "and", "but", "if",
   "or", "because", "as", "until", "while", "of", "at", "by", "for",
   "with", "about", "against", "between", "into", "through", "during",
   "before", "after", "above", "below", "to", "from", "up", "down", "in",
   "out", "on", "off", "over", "under", "again", "further", "then",
   "once", "here", "there", "when", "where", "why", "how", "all", "any",
   "both", "each", "few", "more", "most", "other", "some", "such", "no",
   "nor", "not", "only", "own", "same", "so", "than", "too", "very", "s",
   "t", "can", "will", "just", "don", "should", "now", "d", "ll", "m",
   "o", "re", "ve", "y", "ain", "aren", "couldn", "didn", "doesn",
   "hadn", "hasn", "haven", "isn", "ma", "mightn", "mustn", "needn",
   "shan", "shouldn", "wasn", "weren", "won", "wouldn"]

/-! ### The text normalizer (`preprocess` of backend.py) -/

/-- Filter of `preprocess`: keep a token iff it is alphanumeric, not a
stopword, not purely numeric, and longer than 2 characters.  The filter is
applied to the token before lemmatization, exactly as in the source. -/
def goodToken (w : List Char) : Bool :=
  pyIsAlnum w && !(stopWords.contains (String.mk w)) &&
    !(pyIsDigit w) && decide (2 < w.length)

/-- Token pipeline of `preprocess`: lowercase, tokenize, filter, and
lemmatize each surviving token with the external lemmatizer `lem`. -/
def preprocessTokens (lem : List Char → List Char) (cs : List Char) :
    List (List Char) :=
  ((splitRuns (fun c => !(c == ' ')) (cs.map Char.toLower)).filter
    goodToken).map lem

/-- The normalizer `preprocess(text)` of backend.py: the surviving lemmas
joined with single spaces. -/
def preprocess (lem : List Char → List Char) (s : String) : String :=
  String.mk (joinWords (preprocessTokens lem s.data))

/-! ### The data model -/

/-- Values stored in the numeric-signal slots of a candidate record: numbers or
(malformed) strings. -/
inductive PyVal where
  | num (q : ℚ)
  | str (s : String)
deriving DecidableEq, Repr

/-- Candidate record (an internship posting row, as consumed by
`recommendInternship`).  The text fields are accessed with the Python expression
`record[key]` and exist on every row; the numeric-signal fields are
accessed with `record.get(key, 0)` and may be absent or malformed. -/
structure Intern where
  title : String
  description : String
  required_skills : String
  popularity : Option PyVal
  rating : Option PyVal
  company_prestige : Option PyVal
  stipend : Option PyVal
deriving DecidableEq, Repr

/-- Student record consumed by `recommendInternship`: the resume text in
`skills`, the optional interests text. -/
structure Student where
  skills : Option String
  interests : Option String
deriving DecidableEq, Repr

/-- Python `record.get(key, 0)`. -/
def pyGet (o : Option PyVal) : PyVal := o.getD (PyVal.num 0)

/-- Reads a numeric-signal field the way the arithmetic of the engine does:
a missing field defaults to 0, a numeric value is used as is, and a
string value raises TypeError when arithmetic is applied to it. -/
def numField (o : Option PyVal) : Except String ℚ :=
  match pyGet o with
  | .num q => .ok q
  | .str _ => .error "TypeError"

/-- Numeric value of a field with missing and malformed slots read as 0
(the value the spec ascribes; it agrees with `numField` on fields that do
not raise). -/
def numOf (o : Option PyVal) : ℚ :=
  match pyGet o with
  | .num q => q
  | .str _ => 0

/-- Field that the arithmetic of the engine accepts: absent or numeric. -/
def numOk (o : Option PyVal) : Bool :=
  match pyGet o with
  | .num _ => true
  | .str _ => false

/-- Record whose four numeric-signal fields are absent or numeric. -/
def WF (it : Intern) : Prop :=
  numOk it.popularity = true ∧ numOk it.rating = true ∧
    numOk it.company_prestige = true ∧ numOk it.stipend = true

instance (it : Intern) : Decidable (WF it) := by
  unfold WF; infer_instance

deriving instance DecidableEq for Except

/-! ### Error-propagating list traversal

Models a Python `for` loop that appends one result per element and lets
exceptions escape. -/

/-- Effectful map over a list with exception propagation. -/
def exceptMapM {α β : Type} (f : α → Except String β) :
    List α → Except String (List β)
  | [] => .ok []
  | a :: l => do
    let b ← f a
    let rest ← exceptMapM f l
    pure (b :: rest)

/-! ### The TF-IDF vectorizer (sklearn TfidfVectorizer, as configured) -/

/-- Word character of the default sklearn token pattern. -/
def wordChar (c : Char) : Bool := c.isAlphanum || c == '_'

/-- Tokens of the sklearn analyzer: lowercase, then maximal word-character
runs of length at least 2 (the default token pattern). -/
def sklearnTokens (s : String) : List String :=
  ((splitRuns wordChar (s.data.map Char.toLower)).filter
    (fun w => decide (2 ≤ w.length))).map String.mk

/-- Adjacent bigrams of a token sequence, joined by single spaces. -/
def bigrams : List String → List String
  | a :: b :: rest => (a ++ " " ++ b) :: bigrams (b :: rest)
  | _ => []

/-- Terms of one document under `ngram_range=(1,2)`: unigrams followed by
bigrams. -/
def analyzeDoc (s : String) : List String :=
  sklearnTokens s ++ bigrams (sklearnTokens s)

/-- Document frequency of a term in the analyzed corpus. -/
def dfCount (analyzed : List (List String)) (t : String) : ℕ :=
  (analyzed.filter (fun d => d.contains t)).length

/-- Sorts a term list alphabetically (sklearn keeps its vocabulary in
sorted order). -/
def sortTerms (l : List String) : List String :=
  List.insertionSort (fun a b : String => a ≤ b) l

/-- Vocabulary cap `max_features=5000`: when more terms survive, keep the
5000 with the highest corpus-wide counts.  The statements proved below
are independent of this branch. -/
def limitFeatures (analyzed : List (List String)) (vocab : List String) :
    List String :=
  if vocab.length ≤ 5000 then vocab
  else
    sortTerms
      ((List.insertionSort
        (fun a b : String =>
          (analyzed.flatten.count b < analyzed.flatten.count a) ∨
            (analyzed.flatten.count a = analyzed.flatten.count b ∧ a ≤ b))
        vocab).take 5000)

/-- All zero vector. -/
def isZeroVec (v : List ℚ) : Bool := v.all (fun x => x == 0)

/-- L2 normalisation of a row; `nf v` abstracts the reciprocal norm
`1/sqrt(sum of squares)`.  the sklearn normalisation leaves an all-zero row
unchanged. -/
def l2normalize (nf : List ℚ → ℚ) (v : List ℚ) : List ℚ :=
  if isZeroVec v then v else v.map (fun x => nf v * x)

/-- Dot product. -/
def dotQ (u v : List ℚ) : ℚ := (List.zipWith (· * ·) u v).sum

/-- Cosine similarity of two rows (sklearn `cosine_similarity`): the dot
product of the re-normalised rows, and 0 when either row is all zero. -/
def cosineSimilarity (nf : List ℚ → ℚ) (u v : List ℚ) : ℚ :=
  if isZeroVec u || isZeroVec v then 0
  else dotQ (l2normalize nf u) (l2normalize nf v)

/-- Analyzed corpus: the term sequence of every document. -/
def analyzedCorpus (corpus : List String) : List (List String) :=
  corpus.map analyzeDoc

/-- Vocabulary of the fit, before the `max_features` cap: the distinct
terms occurring in at least `min_df = 2` documents, alphabetically
sorted. -/
def minDfVocab (analyzed : List (List String)) : List String :=
  sortTerms ((analyzed.flatten.dedup).filter
    (fun t => decide (2 ≤ dfCount analyzed t)))

/-- Final vocabulary of the fit (after the `max_features = 5000` cap). -/
def fitVocab (analyzed : List (List String)) : List String :=
  limitFeatures analyzed (minDfVocab analyzed)

/-- Unnormalised tf-idf row of one document: term frequency times the
idf weight of the term (`idf` receives the corpus size and the document frequency of the term). -/
def tfidfRow (idf : ℕ → ℕ → ℚ) (nDocs : ℕ) (analyzed : List (List String))
    (vocab : List String) (d : List String) : List ℚ :=
  vocab.map (fun t => (d.count t : ℚ) * idf nDocs (dfCount analyzed t))

/-- Fit of `TfidfVectorizer(max_features=5000, ngram_range=(1,2),
min_df=2)` over a corpus, producing the sorted feature names and the
normalised tf-idf row of every document.  A term enters the vocabulary
iff it occurs in at least 2 documents; when no term survives, sklearn
raises ValueError, which `recommendInternship` does not catch. -/
def tfidfFit (idf : ℕ → ℕ → ℚ) (nf : List ℚ → ℚ) (corpus : List String) :
    Except String (List String × List (List ℚ)) :=
  if (fitVocab (analyzedCorpus corpus)).isEmpty then
    .error "ValueError: empty vocabulary"
  else
    .ok (fitVocab (analyzedCorpus corpus),
      (analyzedCorpus corpus).map (fun d =>
        l2normalize nf
          (tfidfRow idf corpus.length (analyzedCorpus corpus)
            (fitVocab (analyzedCorpus corpus)) d)))

/-! ### Term contribution helper (`get_top_contributing_terms`) -/

/-- Ascending order on (index, value) pairs, ties by index: the order of
a stable ascending argsort. -/
def npAscRel (a b : ℕ × ℚ) : Prop :=
  a.2 < b.2 ∨ (a.2 = b.2 ∧ a.1 ≤ b.1)

instance : DecidableRel npAscRel := fun a b => by
  unfold npAscRel; infer_instance

/-- Descending order on (index, value) pairs, ties by DESCENDING index:
the order of the reversal of a stable ascending argsort. -/
def npDescRel (a b : ℕ × ℚ) : Prop :=
  b.2 < a.2 ∨ (b.2 = a.2 ∧ b.1 ≤ a.1)

instance : DecidableRel npDescRel := fun a b => by
  unfold npDescRel; infer_instance

/-- Indices of a value list sorted by ascending value; the numpy argsort is
modelled with equal values listed in index order. -/
def argsortAsc (v : List ℚ) : List ℕ :=
  (List.insertionSort npAscRel v.enum).map Prod.fst

/-- The helper `get_top_contributing_terms(query_vec, doc_vec,
feature_names, top_n=3)` of backend.py: elementwise products, indices by
descending product (the reversal of an ascending argsort), the strictly
positive ones, first `top_n`, mapped to feature names. -/
def get_top_contributing_terms (query_vec doc_vec : List ℚ)
    (feature_names : List String) (top_n : ℕ) : List String :=
  ((((argsortAsc (List.zipWith (· * ·) query_vec doc_vec)).reverse).filter
      (fun i => decide (0 < (List.zipWith (· * ·) query_vec doc_vec).getD i 0))).map
    (fun i => feature_names.getD i "")).take top_n

/-! ### Explanation rendering -/

/-- Zero-pads a natural number below 1000 to three digits. -/
def pad3 (n : ℕ) : String :=
  if n < 10 then "00" ++ toString n
  else if n < 100 then "0" ++ toString n
  else toString n

/-- Renders a rational to three decimal places (Python `f-string .3f`,
with half-up instead of float half-even rounding; no statement below
depends on the rendered digits). -/
def fmt3 (q : ℚ) : String :=
  let m : ℤ := ⌊q * 1000 + 1/2⌋
  let sign := if m < 0 then "-" else ""
  let a := m.natAbs
  sign ++ toString (a / 1000) ++ "." ++ pad3 (a % 1000)

/-- Renders a field value the way a Python f-string does: integers
without a decimal point, strings as they are. -/
def pvRepr : PyVal → String
  | .num q => if q.den = 1 then toString q.num else toString q
  | .str s => s

/-- The four explanation lines built for one candidate in the
vector-space path of `recommendInternship`. -/
def explanationLines (it : Intern) (sim : ℚ) (top_terms : List String) :
    List String :=
  (if 0.05 < sim ∧ top_terms ≠ [] then
    "• Keyword Match: " ++ String.intercalate ", " top_terms
  else if 0.05 < sim then
    "• General textual match with your resume."
  else
    "• No strong skill match, ranked by popularity and ratings.") ::
  ["• Similarity Score: " ++ fmt3 sim,
   "• Popularity Score: " ++ pvRepr (pyGet it.popularity) ++ "/100",
   "• Prestige Score: " ++ pvRepr (pyGet it.company_prestige) ++ "/10"]

/-! ### The recommendation engine (`recommendInternship`) -/

/-- Query text assembled from the student record. -/
def buildQueryRaw (st : Student) : String :=
  st.skills.getD "" ++ " " ++ st.interests.getD ""

/-- Document text of one candidate: title, description and required
skills joined with spaces. -/
def docOf (it : Intern) : String :=
  it.title ++ " " ++ it.description ++ " " ++ it.required_skills

/-- Normalised candidate documents. -/
def buildDocs (lem : List Char → List Char) (interns : List Intern) :
    List String :=
  interns.map (fun it => preprocess lem (docOf it))

/-- Python `not query.strip()`. -/
def stripIsEmpty (s : String) : Bool := s.data.all (fun c => c == ' ')

/-- Fallback score of one candidate (the empty-query path):
popularity, rating and prestige only, written as in the source. -/
def fallbackScore (it : Intern) : Except String ℚ := do
  let pop ← numField it.popularity
  let rat ← numField it.rating
  let pres ← numField it.company_prestige
  pure ((pop / 100) * 0.5 + (rat / 5) * 0.3 + (pres / 10) * 0.2)

/-- Maximum stipend across the candidates of one call, 1 when the list is
empty or the maximum is 0.  A non-numeric stipend makes the Python call
fail with TypeError (at the `max` or at the subsequent division); the
model raises here. -/
def maxStipend (interns : List Intern) : Except String ℚ := do
  let stips ← exceptMapM (fun it => numField it.stipend) interns
  let m : ℚ := match stips with
    | [] => 1
    | s :: rest => rest.foldl max s
  pure (if m = 0 then 1 else m)

/-- Blended score of one candidate in the vector-space path, written as
in the source. -/
def blendedScore (sim maxStip : ℚ) (it : Intern) : Except String ℚ := do
  let pop ← numField it.popularity
  let stip ← numField it.stipend
  let rat ← numField it.rating
  let pres ← numField it.company_prestige
  pure (sim * 0.55 + (pop / 100) * 0.15 + min (stip / maxStip) 1 * 0.15 +
    (rat / 5) * 0.10 + (pres / 10) * 0.05)

/-- One iteration of the scoring loop of the vector-space path, for the
`p.1`-th candidate `p.2`: the blended score, the record, and the joined
explanation lines. -/
def vectorBody (nf : List ℚ → ℚ) (maxStip : ℚ) (query_vec : List ℚ)
    (doc_vecs : List (List ℚ)) (feature_names : List String)
    (p : ℕ × Intern) : Except String (ℚ × Intern × String) := do
  let sim := (doc_vecs.map
    (fun dv => cosineSimilarity nf query_vec dv)).getD p.1 0
  let score ← blendedScore sim maxStip p.2
  let top_terms := get_top_contributing_terms query_vec
    (doc_vecs.getD p.1 []) feature_names 3
  pure (score, p.2,
    String.intercalate "\n" (explanationLines p.2 sim top_terms))

/-- The scored, explained (score, record, explanation) triples of the
vector-space path, in input order (before sorting). -/
def vectorTriples (idf : ℕ → ℕ → ℚ) (nf : List ℚ → ℚ) (query : String)
    (docs : List String) (interns : List Intern) :
    Except String (List (ℚ × Intern × String)) := do
  let fit ← tfidfFit idf nf (docs ++ [query])
  let maxStip ← maxStipend interns
  exceptMapM
    (vectorBody nf maxStip (fit.2.getLast?.getD []) fit.2.dropLast fit.1)
    interns.enum

/-- Descending order on scored triples (the key `x[0]` with
`reverse=True`); a stable sort for it models the stable Python `sorted`. -/
def descByScore (a b : ℚ × Intern × String) : Prop := b.1 ≤ a.1

instance : DecidableRel descByScore := fun a b => by
  unfold descByScore; infer_instance

/-- Lexicographic order on (score, random draw) keys, descending; models
`key=lambda x: (x[0], random.random())` with `reverse=True`. -/
def descByKey (a b : (ℚ × Intern × String) × ℚ) : Prop :=
  b.1.1 < a.1.1 ∨ (b.1.1 = a.1.1 ∧ b.2 ≤ a.2)

instance : DecidableRel descByKey := fun a b => by
  unfold descByKey; infer_instance

/-- Attaches the random tie-break draw to every triple: element `i` of
the list receives `draws i`, mirroring the one `random.random()` call per
element made while `sorted` computes the keys. -/
def decorate (draws : ℕ → ℚ) (l : List (ℚ × Intern × String)) :
    List ((ℚ × Intern × String) × ℚ) :=
  l.enum.map (fun p => (p.2, draws p.1))

/-- One iteration of the fallback loop: the fallback score, the record,
and the fixed fallback explanation. -/
def fallbackBody (it : Intern) : Except String (ℚ × Intern × String) := do
  let s ← fallbackScore it
  pure (s, it, "Recommended based on general popularity and ratings.")

/-- The engine `recommendInternship(student, internships, top_n)` of
backend.py. -/
def recommendInternship (lem : List Char → List Char) (idf : ℕ → ℕ → ℚ)
    (nf : List ℚ → ℚ) (draws : ℕ → ℚ) (student : Student)
    (internships : List Intern) (top_n : ℕ) :
    Except String (List (ℚ × Intern × String)) :=
  if internships.isEmpty then .ok []
  else if stripIsEmpty (preprocess lem (buildQueryRaw student)) then
    (exceptMapM fallbackBody internships).map
      (fun scores => (List.insertionSort descByScore scores).take top_n)
  else
    (vectorTriples idf nf (preprocess lem (buildQueryRaw student))
        (buildDocs lem internships) internships).map
      (fun scores =>
        ((List.insertionSort descByKey (decorate draws scores)).map
          Prod.fst).take top_n)

/-! ### Generic lemmas about the building blocks -/

theorem except_bind_ok {α β : Type} (a : α) (f : α → Except String β) :
    (Except.ok a >>= f) = f a := rfl

theorem except_bind_error {α β : Type} (e : String) (f : α → Except String β) :
    ((Except.error e : Except String α) >>= f) = Except.error e := rfl

theorem exceptMapM_ok_length {α β : Type} {f : α → Except String β}
    {l : List α} {m : List β} (h : exceptMapM f l = .ok m) :
    m.length = l.length := by
  induction l generalizing m with
  | nil =>
    simp only [exceptMapM] at h
    cases h
    rfl
  | cons a t ih =>
    simp only [exceptMapM] at h
    cases hf : f a with
    | error e => rw [hf, except_bind_error] at h; cases h
    | ok b =>
      rw [hf, except_bind_ok] at h
      cases hr : exceptMapM f t with
      | error e => rw [hr, except_bind_error] at h; cases h
      | ok rest =>
        rw [hr, except_bind_ok] at h
        cases h
        simp [ih hr]

theorem exceptMapM_ok_mem {α β : Type} {f : α → Except String β}
    {l : List α} {m : List β} (h : exceptMapM f l = .ok m) :
    ∀ b ∈ m, ∃ a ∈ l, f a = .ok b := by
  induction l generalizing m with
  | nil =>
    simp only [exceptMapM] at h
    cases h
    intro b hb
    cases hb
  | cons a t ih =>
    simp only [exceptMapM] at h
    cases hf : f a with
    | error e => rw [hf, except_bind_error] at h; cases h
    | ok b₀ =>
      rw [hf, except_bind_ok] at h
      cases hr : exceptMapM f t with
      | error e => rw [hr, except_bind_error] at h; cases h
      | ok rest =>
        rw [hr, except_bind_ok] at h
        cases h
        intro b hb
        rcases List.mem_cons.1 hb with rfl | hb'
        · exact ⟨a, List.mem_cons_self a t, hf⟩
        · rcases ih hr b hb' with ⟨a', ha', hfa'⟩
          exact ⟨a', List.mem_cons_of_mem a ha', hfa'⟩

theorem exceptMapM_eq_map {α β : Type} {f : α → Except String β}
    {g : α → β} {l : List α} (h : ∀ a ∈ l, f a = .ok (g a)) :
    exceptMapM f l = .ok (l.map g) := by
  induction l with
  | nil => rfl
  | cons a t ih =>
    simp only [exceptMapM]
    rw [h a (List.mem_cons_self a t), except_bind_ok,
      ih (fun x hx => h x (List.mem_cons_of_mem a hx)), except_bind_ok]
    rfl

theorem exceptMapM_map_rel {α α' β β' : Type} {f₁ : α → Except String β}
    {f₂ : α' → Except String β'} {h : α → α'} {g : β → β'} {l : List α}
    (hpt : ∀ a ∈ l, f₂ (h a) = (f₁ a).map g) :
    exceptMapM f₂ (l.map h) = (exceptMapM f₁ l).map (List.map g) := by
  induction l with
  | nil => rfl
  | cons a t ih =>
    simp only [List.map, exceptMapM]
    rw [hpt a (List.mem_cons_self a t),
      ih (fun x hx => hpt x (List.mem_cons_of_mem a hx))]
    cases f₁ a with
    | error e => rfl
    | ok b =>
      cases exceptMapM f₁ t with
      | error e => rfl
      | ok rest => rfl

theorem numField_eq_ok {o : Option PyVal} (h : numOk o = true) :
    numField o = .ok (numOf o) := by
  cases hp : pyGet o with
  | num q => simp [numField, numOf, hp]
  | str s => simp [numOk, hp] at h

/-! ### Order properties of the sorting relations -/

instance : IsTotal (ℚ × Intern × String) descByScore :=
  ⟨fun a b => le_total b.1 a.1⟩

instance : IsTrans (ℚ × Intern × String) descByScore :=
  ⟨fun _ _ _ h₁ h₂ => le_trans h₂ h₁⟩

instance : IsTotal ((ℚ × Intern × String) × ℚ) descByKey := by
  constructor
  intro a b
  rcases lt_trichotomy a.1.1 b.1.1 with h | h | h
  · exact Or.inr (Or.inl h)
  · rcases le_total a.2 b.2 with h2 | h2
    · exact Or.inr (Or.inr ⟨h, h2⟩)
    · exact Or.inl (Or.inr ⟨h.symm, h2⟩)
  · exact Or.inl (Or.inl h)

instance : IsTrans ((ℚ × Intern × String) × ℚ) descByKey := by
  constructor
  intro a b c hab hbc
  rcases hab with h₁ | ⟨h₁, h₁'⟩
  · rcases hbc with h₂ | ⟨h₂, h₂'⟩
    · exact Or.inl (lt_trans h₂ h₁)
    · exact Or.inl (lt_of_le_of_lt (le_of_eq h₂) h₁)
  · rcases hbc with h₂ | ⟨h₂, h₂'⟩
    · exact Or.inl (lt_of_lt_of_le h₂ (le_of_eq h₁))
    · exact Or.inr ⟨h₂.trans h₁, le_trans h₂' h₁'⟩

/-! ### Canonical parameter instantiations used by the concrete inputs -/

/-- Identity lemmatizer (used where no hypothesis constrains `lem`). -/
def lem0 : List Char → List Char := fun w => w

/-- Constant idf weight (every statement is independent of `idf`). -/
def idf0 : ℕ → ℕ → ℚ := fun _ _ => 1

/-- Constant reciprocal norm (every statement is independent of `nf`). -/
def nf0 : List ℚ → ℚ := fun _ => 1

/-- Constant random draw. -/
def draws0 : ℕ → ℚ := fun _ => 0

/-- Second random-draw stream, distinct from `draws0`. -/
def draws1 : ℕ → ℚ := fun _ => 37

/-! ### Concrete inputs for witnesses and counterexamples -/

/-- Student whose resume text is "alpha beta". -/
def stuA : Student := ⟨some "alpha beta", none⟩

/-- Student with no extractable text (fallback path). -/
def stuF : Student := ⟨none, none⟩

/-- Student whose resume text is "beta" (shares no term with `internC`). -/
def stuC : Student := ⟨some "beta", none⟩

/-- Student whose resume text is "delta" (shares no term with `internG`). -/
def stuG : Student := ⟨some "delta", none⟩

/-- Candidate whose document is "alpha beta alpha beta". -/
def internA : Intern :=
  ⟨"alpha beta alpha beta", "", "", some (PyVal.num 80), some (PyVal.num 4),
    some (PyVal.num 7), some (PyVal.num 1000)⟩

/-- Candidate whose document is "alpha beta". -/
def internB : Intern :=
  ⟨"alpha beta", "", "", some (PyVal.num 90), some (PyVal.num 5),
    some (PyVal.num 8), some (PyVal.num 2000)⟩

/-- Candidate whose document is "alpha". -/
def internC : Intern :=
  ⟨"alpha", "", "", some (PyVal.num 10), some (PyVal.num 1),
    some (PyVal.num 1), some (PyVal.num 0)⟩

/-- Candidate whose document is "gamma". -/
def internG : Intern :=
  ⟨"gamma", "", "", some (PyVal.num 10), some (PyVal.num 1),
    some (PyVal.num 1), some (PyVal.num 0)⟩

/-- Candidate with every numeric-signal field absent. -/
def internD : Intern := ⟨"", "", "", none, none, none, none⟩

/-- Candidate with a non-numeric popularity value. -/
def internBad : Intern :=
  ⟨"x", "", "", some (PyVal.str "high"), some (PyVal.num 1),
    some (PyVal.num 1), none⟩

/-! ### Path lemmas for the engine -/

theorem except_map_ok {α β : Type} (f : α → β) (a : α) :
    (Except.ok a : Except String α).map f = .ok (f a) := rfl

theorem except_map_error {α β : Type} (f : α → β) (e : String) :
    (Except.error e : Except String α).map f = .error e := rfl

theorem rank_nil (lem : List Char → List Char) (idf : ℕ → ℕ → ℚ)
    (nf : List ℚ → ℚ) (draws : ℕ → ℚ) (st : Student) (n : ℕ) :
    recommendInternship lem idf nf draws st [] n = .ok [] := rfl

theorem rank_fallback_eq {lem : List Char → List Char} {idf : ℕ → ℕ → ℚ}
    {nf : List ℚ → ℚ} {draws : ℕ → ℚ} {st : Student} {interns : List Intern}
    {n : ℕ} (hne : interns ≠ [])
    (hq : stripIsEmpty (preprocess lem (buildQueryRaw st)) = true) :
    recommendInternship lem idf nf draws st interns n =
      (exceptMapM fallbackBody interns).map
        (fun scores => (List.insertionSort descByScore scores).take n) := by
  unfold recommendInternship
  rw [if_neg, if_pos hq]
  cases interns with
  | nil => exact absurd rfl hne
  | cons a t => simp

theorem rank_vector_eq {lem : List Char → List Char} {idf : ℕ → ℕ → ℚ}
    {nf : List ℚ → ℚ} {draws : ℕ → ℚ} {st : Student} {interns : List Intern}
    {n : ℕ} (hne : interns ≠ [])
    (hq : stripIsEmpty (preprocess lem (buildQueryRaw st)) = false) :
    recommendInternship lem idf nf draws st interns n =
      (vectorTriples idf nf (preprocess lem (buildQueryRaw st))
          (buildDocs lem interns) interns).map
        (fun scores =>
          ((List.insertionSort descByKey (decorate draws scores)).map
            Prod.fst).take n) := by
  unfold recommendInternship
  rw [if_neg, if_neg]
  · rw [hq]; simp
  · cases interns with
    | nil => exact absurd rfl hne
    | cons a t => simp

theorem fallbackBody_ok_snd {it : Intern} {b : ℚ × Intern × String}
    (h : fallbackBody it = .ok b) : b.2.1 = it := by
  unfold fallbackBody at h
  cases hs : fallbackScore it with
  | error e => rw [hs, except_bind_error] at h; cases h
  | ok s =>
    rw [hs, except_bind_ok] at h
    injection h with h2
    rw [← h2]

theorem vectorBody_ok_snd {nf : List ℚ → ℚ} {ms : ℚ} {qv : List ℚ}
    {dvs : List (List ℚ)} {names : List String} {p : ℕ × Intern}
    {b : ℚ × Intern × String}
    (h : vectorBody nf ms qv dvs names p = .ok b) : b.2.1 = p.2 := by
  simp only [vectorBody] at h
  cases hs : blendedScore
      ((dvs.map (fun dv => cosineSimilarity nf qv dv)).getD p.1 0) ms p.2 with
  | error e => rw [hs, except_bind_error] at h; cases h
  | ok s =>
    rw [hs, except_bind_ok] at h
    injection h with h2
    rw [← h2]

theorem enum_snd_mem {α : Type} {l : List α} {p : ℕ × α} (h : p ∈ l.enum) :
    p.2 ∈ l := by
  have := List.mem_map_of_mem Prod.snd h
  rwa [List.enum_map_snd] at this

theorem decorate_length (draws : ℕ → ℚ) (l : List (ℚ × Intern × String)) :
    (decorate draws l).length = l.length := by
  simp [decorate]

theorem decorate_mem_fst {draws : ℕ → ℚ} {l : List (ℚ × Intern × String)}
    {d : (ℚ × Intern × String) × ℚ} (h : d ∈ decorate draws l) : d.1 ∈ l := by
  unfold decorate at h
  rcases List.mem_map.1 h with ⟨p, hp, rfl⟩
  exact enum_snd_mem hp

theorem vectorTriples_ok_length {idf : ℕ → ℕ → ℚ} {nf : List ℚ → ℚ}
    {q : String} {docs : List String} {interns : List Intern}
    {l : List (ℚ × Intern × String)}
    (h : vectorTriples idf nf q docs interns = .ok l) :
    l.length = interns.length := by
  unfold vectorTriples at h
  cases hf : tfidfFit idf nf (docs ++ [q]) with
  | error e => rw [hf, except_bind_error] at h; cases h
  | ok fit =>
    rw [hf, except_bind_ok] at h
    cases hm : maxStipend interns with
    | error e => rw [hm, except_bind_error] at h; cases h
    | ok ms =>
      rw [hm, except_bind_ok] at h
      rw [exceptMapM_ok_length h, List.enum_length]

theorem vectorTriples_ok_mem {idf : ℕ → ℕ → ℚ} {nf : List ℚ → ℚ}
    {q : String} {docs : List String} {interns : List Intern}
    {l : List (ℚ × Intern × String)}
    (h : vectorTriples idf nf q docs interns = .ok l) :
    ∀ t ∈ l, t.2.1 ∈ interns := by
  unfold vectorTriples at h
  cases hf : tfidfFit idf nf (docs ++ [q]) with
  | error e => rw [hf, except_bind_error] at h; cases h
  | ok fit =>
    rw [hf, except_bind_ok] at h
    cases hm : maxStipend interns with
    | error e => rw [hm, except_bind_error] at h; cases h
    | ok ms =>
      rw [hm, except_bind_ok] at h
      intro t ht
      rcases exceptMapM_ok_mem h t ht with ⟨p, hp, hfp⟩
      rw [vectorBody_ok_snd hfp]
      exact enum_snd_mem hp

/-! ### Assembly lemmas for evaluating the engine stagewise -/

theorem tfidfFit_eq_error {idf : ℕ → ℕ → ℚ} {nf : List ℚ → ℚ}
    {corpus : List String}
    (h : (fitVocab (analyzedCorpus corpus)).isEmpty = true) :
    tfidfFit idf nf corpus = .error "ValueError: empty vocabulary" := by
  unfold tfidfFit
  rw [if_pos h]

theorem tfidfFit_eq_ok {idf : ℕ → ℕ → ℚ} {nf : List ℚ → ℚ}
    {corpus : List String} {V : List String} {R : List (List ℚ)}
    (hV : fitVocab (analyzedCorpus corpus) = V) (hne : V.isEmpty = false)
    (hR : (analyzedCorpus corpus).map (fun d =>
      l2normalize nf (tfidfRow idf corpus.length (analyzedCorpus corpus) V d)) = R) :
    tfidfFit idf nf corpus = .ok (V, R) := by
  unfold tfidfFit
  rw [hV, if_neg (by simp [hne]), hR]

theorem vectorTriples_eq {idf : ℕ → ℕ → ℚ} {nf : List ℚ → ℚ} {q : String}
    {docs : List String} {interns : List Intern} {fitV : List String}
    {fitR : List (List ℚ)} {ms : ℚ}
    {out : Except String (List (ℚ × Intern × String))}
    (hf : tfidfFit idf nf (docs ++ [q]) = .ok (fitV, fitR))
    (hm : maxStipend interns = .ok ms)
    (hmap : exceptMapM
      (vectorBody nf ms (fitR.getLast?.getD []) fitR.dropLast fitV)
      interns.enum = out) :
    vectorTriples idf nf q docs interns = out := by
  unfold vectorTriples
  rw [hf, except_bind_ok, hm, except_bind_ok]
  exact hmap

theorem vectorTriples_eq_error_fit {idf : ℕ → ℕ → ℚ} {nf : List ℚ → ℚ}
    {q : String} {docs : List String} {interns : List Intern} {e : String}
    (hf : tfidfFit idf nf (docs ++ [q]) = .error e) :
    vectorTriples idf nf q docs interns = .error e := by
  unfold vectorTriples
  rw [hf, except_bind_error]

theorem rank_fallback_result {lem : List Char → List Char}
    {idf : ℕ → ℕ → ℚ} {nf : List ℚ → ℚ} {draws : ℕ → ℚ} {st : Student}
    {interns : List Intern} {n : ℕ} {scores : List (ℚ × Intern × String)}
    (hne : interns ≠ [])
    (hq : stripIsEmpty (preprocess lem (buildQueryRaw st)) = true)
    (hm : exceptMapM fallbackBody interns = .ok scores) :
    recommendInternship lem idf nf draws st interns n =
      .ok ((List.insertionSort descByScore scores).take n) := by
  rw [rank_fallback_eq hne hq, hm, except_map_ok]

theorem rank_fallback_error {lem : List Char → List Char}
    {idf : ℕ → ℕ → ℚ} {nf : List ℚ → ℚ} {draws : ℕ → ℚ} {st : Student}
    {interns : List Intern} {n : ℕ} {e : String}
    (hne : interns ≠ [])
    (hq : stripIsEmpty (preprocess lem (buildQueryRaw st)) = true)
    (hm : exceptMapM fallbackBody interns = .error e) :
    recommendInternship lem idf nf draws st interns n = .error e := by
  rw [rank_fallback_eq hne hq, hm, except_map_error]

theorem rank_vector_result {lem : List Char → List Char}
    {idf : ℕ → ℕ → ℚ} {nf : List ℚ → ℚ} {draws : ℕ → ℚ} {st : Student}
    {interns : List Intern} {n : ℕ} {scores : List (ℚ × Intern × String)}
    (hne : interns ≠ [])
    (hq : stripIsEmpty (preprocess lem (buildQueryRaw st)) = false)
    (hv : vectorTriples idf nf (preprocess lem (buildQueryRaw st))
      (buildDocs lem interns) interns = .ok scores) :
    recommendInternship lem idf nf draws st interns n =
      .ok (((List.insertionSort descByKey (decorate draws scores)).map
        Prod.fst).take n) := by
  rw [rank_vector_eq hne hq, hv, except_map_ok]

theorem rank_vector_error {lem : List Char → List Char}
    {idf : ℕ → ℕ → ℚ} {nf : List ℚ → ℚ} {draws : ℕ → ℚ} {st : Student}
    {interns : List Intern} {n : ℕ} {e : String}
    (hne : interns ≠ [])
    (hq : stripIsEmpty (preprocess lem (buildQueryRaw st)) = false)
    (hv : vectorTriples idf nf (preprocess lem (buildQueryRaw st))
      (buildDocs lem interns) interns = .error e) :
    recommendInternship lem idf nf draws st interns n = .error e := by
  rw [rank_vector_eq hne hq, hv, except_map_error]

/-! ### Claim C3: result length -/

/-- Claim C3, amended: whenever `recommendInternship` returns normally it
returns exactly min(topN, number of candidates) results, and for the
empty candidate list it returns the empty list.  (As stated, the claim
fails: the vector-space path can raise; see the counterexample.) -/
theorem c3_result_length (lem : List Char → List Char) (idf : ℕ → ℕ → ℚ)
    (nf : List ℚ → ℚ) (draws : ℕ → ℚ) (st : Student)
    (interns : List Intern) (n : ℕ) :
    (∀ out, recommendInternship lem idf nf draws st interns n = .ok out →
      out.length = min n interns.length) ∧
    recommendInternship lem idf nf draws st [] n = .ok [] := by
  constructor
  · intro out h
    by_cases hne : interns = []
    · subst hne
      rw [rank_nil] at h
      injection h with h2
      subst h2
      simp
    · by_cases hq : stripIsEmpty (preprocess lem (buildQueryRaw st)) = true
      · rw [rank_fallback_eq hne hq] at h
        cases hm : exceptMapM fallbackBody interns with
        | error e => rw [hm, except_map_error] at h; cases h
        | ok scores =>
          rw [hm, except_map_ok] at h
          injection h with h2
          subst h2
          rw [List.length_take, List.length_insertionSort,
            exceptMapM_ok_length hm]
      · rw [rank_vector_eq hne (Bool.not_eq_true _ ▸ hq)] at h
        cases hv : vectorTriples idf nf (preprocess lem (buildQueryRaw st))
            (buildDocs lem interns) interns with
        | error e => rw [hv, except_map_error] at h; cases h
        | ok scores =>
          rw [hv, except_map_ok] at h
          injection h with h2
          subst h2
          rw [List.length_take, List.length_map, List.length_insertionSort,
            decorate_length, vectorTriples_ok_length hv]
  · exact rank_nil lem idf nf draws st n

/-- Witness for C3 at a concrete input: one candidate, empty query. -/
theorem c3_result_length_witness :
    recommendInternship lem0 idf0 nf0 draws0 stuF [internD] 5 =
      Except.ok [(0, internD,
        "Recommended based on general popularity and ratings.")] ∧
    ([(0, internD,
        "Recommended based on general popularity and ratings.")] :
      List (ℚ × Intern × String)).length = min 5 1 := by
  have hm : exceptMapM fallbackBody [internD] = Except.ok [(0, internD,
      "Recommended based on general popularity and ratings.")] := by
    with_unfolding_all decide
  have h : recommendInternship lem0 idf0 nf0 draws0 stuF [internD] 5 =
      Except.ok [(0, internD,
        "Recommended based on general popularity and ratings.")] := by
    rw [rank_fallback_result (by decide) (by decide) hm]
    with_unfolding_all decide
  exact ⟨h, (c3_result_length lem0 idf0 nf0 draws0 stuF [internD] 5).1 _ h⟩

/-- Counterexample to C3 as stated: with query "beta" and the single
candidate document "alpha" every term occurs in only one document, the
vocabulary is empty after the min_df filter, and the call raises instead
of returning a list of length min(topN, 1). -/
theorem c3_counterexample :
    recommendInternship lem0 idf0 nf0 draws0 stuC [internC] 5 =
      Except.error "ValueError: empty vocabulary" := by
  refine rank_vector_error (by decide) (by with_unfolding_all decide) ?_
  exact vectorTriples_eq_error_fit (tfidfFit_eq_error (by with_unfolding_all decide))

/-! ### Claim C4: empty vocabulary must not crash -/

/-- Claim C4 (the code violates it): at a concrete input whose terms all
fall below the min_df threshold, `recommendInternship` raises the sklearn
ValueError instead of degrading to zero similarity. -/
theorem c4_empty_vocabulary_crash :
    recommendInternship lem0 idf0 nf0 draws0 stuG [internG] 5 =
      Except.error "ValueError: empty vocabulary" := by
  refine rank_vector_error (by decide) (by with_unfolding_all decide) ?_
  exact vectorTriples_eq_error_fit (tfidfFit_eq_error (by with_unfolding_all decide))

/-! ### Claim C9: the candidate list is not mutated -/

/-- Claim C9: the engine is a pure function of its arguments (it is
modelled as one because the source reads but never writes its inputs:
every record access is `dict.get`, and both sort operations build new
lists), and every record in the output is one of the supplied candidate
records, returned unmodified. -/
theorem c9_no_mutation (lem : List Char → List Char) (idf : ℕ → ℕ → ℚ)
    (nf : List ℚ → ℚ) (draws : ℕ → ℚ) (st : Student)
    (interns : List Intern) (n : ℕ)
    (out : List (ℚ × Intern × String))
    (h : recommendInternship lem idf nf draws st interns n = .ok out) :
    ∀ t ∈ out, t.2.1 ∈ interns := by
  intro t ht
  by_cases hne : interns = []
  · subst hne
    rw [rank_nil] at h
    injection h with h2
    subst h2
    cases ht
  · by_cases hq : stripIsEmpty (preprocess lem (buildQueryRaw st)) = true
    · rw [rank_fallback_eq hne hq] at h
      cases hm : exceptMapM fallbackBody interns with
      | error e => rw [hm, except_map_error] at h; cases h
      | ok scores =>
        rw [hm, except_map_ok] at h
        injection h with h2
        subst h2
        have ht2 : t ∈ scores := (List.mem_insertionSort descByScore).1
          ((List.take_sublist _ _).subset ht)
        rcases exceptMapM_ok_mem hm t ht2 with ⟨a, ha, hfa⟩
        rw [fallbackBody_ok_snd hfa]
        exact ha
    · rw [rank_vector_eq hne (Bool.not_eq_true _ ▸ hq)] at h
      cases hv : vectorTriples idf nf (preprocess lem (buildQueryRaw st))
          (buildDocs lem interns) interns with
      | error e => rw [hv, except_map_error] at h; cases h
      | ok scores =>
        rw [hv, except_map_ok] at h
        injection h with h2
        subst h2
        have ht1 : t ∈ (List.insertionSort descByKey
            (decorate draws scores)).map Prod.fst :=
          (List.take_sublist _ _).subset ht
        rcases List.mem_map.1 ht1 with ⟨d, hd, rfl⟩
        have hd2 : d ∈ decorate draws scores :=
          (List.mem_insertionSort descByKey).1 hd
        exact vectorTriples_ok_mem hv d.1 (decorate_mem_fst hd2)

/-- Witness for C9 at a concrete input: the top returned record is
(physically) the second supplied record. -/
theorem c9_no_mutation_witness :
    recommendInternship lem0 idf0 nf0 draws0 stuF [internA, internB] 5 =
      Except.ok
        [(91/100, internB,
          "Recommended based on general popularity and ratings."),
         (39/50, internA,
          "Recommended based on general popularity and ratings.")] ∧
    internB ∈ [internA, internB] := by
  have hm : exceptMapM fallbackBody [internA, internB] =
      Except.ok
        [(39/50, internA,
          "Recommended based on general popularity and ratings."),
         (91/100, internB,
          "Recommended based on general popularity and ratings.")] := by
    with_unfolding_all decide
  have h : recommendInternship lem0 idf0 nf0 draws0 stuF [internA, internB] 5 =
      Except.ok
        [(91/100, internB,
          "Recommended based on general popularity and ratings."),
         (39/50, internA,
          "Recommended based on general popularity and ratings.")] := by
    rw [rank_fallback_result (by decide) (by decide) hm]
    with_unfolding_all decide
  refine ⟨h, ?_⟩
  exact c9_no_mutation lem0 idf0 nf0 draws0 stuF [internA, internB] 5 _ h
    ((91/100 : ℚ), internB,
      "Recommended based on general popularity and ratings.")
    (List.mem_cons_self _ _)

/-! ### Claim C7: missing numeric fields -/

/-- Replaces an absent numeric-signal slot by an explicit numeric 0
(what `record.get(key, 0)` supplies); present values are unchanged. -/
def zeroFillField (o : Option PyVal) : Option PyVal := some (pyGet o)

/-- Record with every absent numeric-signal field replaced by 0. -/
def zeroFill (it : Intern) : Intern :=
  { it with
    popularity := zeroFillField it.popularity
    rating := zeroFillField it.rating
    company_prestige := zeroFillField it.company_prestige
    stipend := zeroFillField it.stipend }

/-- Output triple under the zero-filling of its record. -/
def tripleZF (t : ℚ × Intern × String) : ℚ × Intern × String :=
  (t.1, zeroFill t.2.1, t.2.2)

theorem pyGet_zeroFillField (o : Option PyVal) :
    pyGet (zeroFillField o) = pyGet o := rfl

theorem numField_zeroFillField (o : Option PyVal) :
    numField (zeroFillField o) = numField o := rfl

theorem docOf_zeroFill (it : Intern) : docOf (zeroFill it) = docOf it := rfl

theorem buildDocs_zeroFill (lem : List Char → List Char)
    (interns : List Intern) :
    buildDocs lem (interns.map zeroFill) = buildDocs lem interns := by
  unfold buildDocs
  rw [List.map_map]
  rfl

theorem fallbackScore_zeroFill (it : Intern) :
    fallbackScore (zeroFill it) = fallbackScore it := rfl

theorem blendedScore_zeroFill (sim maxStip : ℚ) (it : Intern) :
    blendedScore sim maxStip (zeroFill it) = blendedScore sim maxStip it := rfl

theorem explanationLines_zeroFill (it : Intern) (sim : ℚ)
    (top_terms : List String) :
    explanationLines (zeroFill it) sim top_terms =
      explanationLines it sim top_terms := rfl

theorem fallbackBody_zeroFill (it : Intern) :
    fallbackBody (zeroFill it) = (fallbackBody it).map tripleZF := by
  unfold fallbackBody
  rw [fallbackScore_zeroFill]
  cases fallbackScore it with
  | error e => rfl
  | ok s => rfl

theorem exceptMapM_comp_congr {α α' β : Type} {f : α' → Except String β}
    {g : α → Except String β} {h : α → α'} {l : List α}
    (hpt : ∀ a ∈ l, f (h a) = g a) :
    exceptMapM f (l.map h) = exceptMapM g l := by
  induction l with
  | nil => rfl
  | cons a t ih =>
    simp only [List.map, exceptMapM]
    rw [hpt a (List.mem_cons_self a t),
      ih (fun x hx => hpt x (List.mem_cons_of_mem a hx))]

theorem maxStipend_zeroFill (interns : List Intern) :
    maxStipend (interns.map zeroFill) = maxStipend interns := by
  unfold maxStipend
  rw [exceptMapM_comp_congr (fun a _ => numField_zeroFillField a.stipend)]

theorem vectorBody_zeroFill (nf : List ℚ → ℚ) (ms : ℚ) (qv : List ℚ)
    (dvs : List (List ℚ)) (names : List String) (p : ℕ × Intern) :
    vectorBody nf ms qv dvs names (p.1, zeroFill p.2) =
      (vectorBody nf ms qv dvs names p).map tripleZF := by
  simp only [vectorBody]
  rw [blendedScore_zeroFill]
  cases blendedScore ((dvs.map (fun dv => cosineSimilarity nf qv dv)).getD p.1 0)
      ms p.2 with
  | error e => rfl
  | ok s => rfl

theorem vectorTriples_zeroFill (idf : ℕ → ℕ → ℚ) (nf : List ℚ → ℚ)
    (q : String) (docs : List String) (interns : List Intern) :
    vectorTriples idf nf q docs (interns.map zeroFill) =
      (vectorTriples idf nf q docs interns).map (List.map tripleZF) := by
  unfold vectorTriples
  cases tfidfFit idf nf (docs ++ [q]) with
  | error e => rfl
  | ok fit =>
    rw [except_bind_ok, except_bind_ok, maxStipend_zeroFill]
    cases maxStipend interns with
    | error e => rfl
    | ok ms =>
      rw [except_bind_ok, except_bind_ok, List.enum_map]
      exact exceptMapM_map_rel
        (fun p _ => vectorBody_zeroFill nf ms (fit.2.getLast?.getD [])
          fit.2.dropLast fit.1 p)

/-- Claim C7, amended: an absent numeric-signal field behaves exactly as
an explicit 0 on that field: zero-filling every record commutes with the
whole ranking call (same scores, same order, same explanations, and the
call raises on the zero-filled list iff it raises on the original).
Non-numeric field values are NOT recovered; see the counterexample. -/
theorem c7_missing_fields_as_zero (lem : List Char → List Char)
    (idf : ℕ → ℕ → ℚ) (nf : List ℚ → ℚ) (draws : ℕ → ℚ) (st : Student)
    (interns : List Intern) (n : ℕ) :
    recommendInternship lem idf nf draws st (interns.map zeroFill) n =
      (recommendInternship lem idf nf draws st interns n).map
        (List.map tripleZF) := by
  by_cases hne : interns = []
  · subst hne
    rfl
  · have hne' : interns.map zeroFill ≠ [] := by
      cases interns with
      | nil => exact absurd rfl hne
      | cons a t => simp
    by_cases hq : stripIsEmpty (preprocess lem (buildQueryRaw st)) = true
    · rw [rank_fallback_eq hne' hq, rank_fallback_eq hne hq,
        exceptMapM_map_rel (fun it _ => fallbackBody_zeroFill it)]
      cases exceptMapM fallbackBody interns with
      | error e => rfl
      | ok scores =>
        simp only [Except.map]
        rw [← List.map_insertionSort descByScore descByScore tripleZF scores
          (fun a _ b _ => Iff.rfl), List.map_take]
    · have hq' : stripIsEmpty (preprocess lem (buildQueryRaw st)) = false :=
        Bool.not_eq_true _ ▸ hq
      rw [rank_vector_eq hne' hq', rank_vector_eq hne hq',
        buildDocs_zeroFill, vectorTriples_zeroFill]
      cases vectorTriples idf nf (preprocess lem (buildQueryRaw st))
          (buildDocs lem interns) interns with
      | error e => rfl
      | ok scores =>
        simp only [Except.map]
        have hdec : decorate draws (scores.map tripleZF) =
            (decorate draws scores).map (Prod.map tripleZF id) := by
          unfold decorate
          rw [List.enum_map, List.map_map, List.map_map]
          rfl
        rw [hdec, ← List.map_insertionSort descByKey descByKey
          (Prod.map tripleZF id) _ (fun a _ b _ => Iff.rfl),
          List.map_map, List.map_take, List.map_map]
        rfl

/-- Counterexample to C7 as stated: a record whose popularity slot holds
the string "high" is not recovered to 0 — the division in the scoring
loop raises TypeError, which escapes the call. -/
theorem c7_counterexample :
    recommendInternship lem0 idf0 nf0 draws0 stuF [internBad] 5 =
      Except.error "TypeError" := by
  refine rank_fallback_error (by decide) (by decide) ?_
  with_unfolding_all decide

/-! ### Claim C2: the fallback path -/

/-- Fallback triple of one candidate, written exactly as the source
computes it (the monadic `fallbackBody` collapses to this pure value on a
record whose fields are absent or numeric). -/
def fallbackTripleP (it : Intern) : ℚ × Intern × String :=
  ((numOf it.popularity / 100) * 0.5 + (numOf it.rating / 5) * 0.3 +
    (numOf it.company_prestige / 10) * 0.2, it,
    "Recommended based on general popularity and ratings.")

theorem fallbackScore_eq_ok {it : Intern} (h : WF it) :
    fallbackScore it = .ok ((numOf it.popularity / 100) * 0.5 +
      (numOf it.rating / 5) * 0.3 + (numOf it.company_prestige / 10) * 0.2) := by
  obtain ⟨h1, h2, h3, _⟩ := h
  unfold fallbackScore
  rw [numField_eq_ok h1, except_bind_ok, numField_eq_ok h2, except_bind_ok,
    numField_eq_ok h3, except_bind_ok]
  rfl

theorem fallbackBody_eq_ok {it : Intern} (h : WF it) :
    fallbackBody it = .ok (fallbackTripleP it) := by
  unfold fallbackBody
  rw [fallbackScore_eq_ok h, except_bind_ok]
  rfl

/-- Claim C2: on a non-empty candidate list with an empty (or
whitespace-only) normalized query, the engine never enters the
vector-space path — the result does not depend on the idf weights, the
norms, or the random draws — and instead scores every candidate by
exactly 0.5*(popularity/100) + 0.3*(rating/5) + 0.2*(prestige/10),
attaches the fixed fallback explanation, sorts descending by that score
and returns the first topN. -/
theorem c2_fallback_path (lem : List Char → List Char)
    (idf idf' : ℕ → ℕ → ℚ) (nf nf' : List ℚ → ℚ) (draws draws' : ℕ → ℚ)
    (st : Student) (interns : List Intern) (n : ℕ)
    (hne : interns ≠ [])
    (hq : stripIsEmpty (preprocess lem (buildQueryRaw st)) = true)
    (hwf : ∀ it ∈ interns, WF it) :
    recommendInternship lem idf nf draws st interns n =
      .ok ((List.insertionSort descByScore (interns.map (fun it =>
        (0.5 * (numOf it.popularity / 100) + 0.3 * (numOf it.rating / 5) +
          0.2 * (numOf it.company_prestige / 10), it,
          "Recommended based on general popularity and ratings.")))).take n) ∧
    recommendInternship lem idf nf draws st interns n =
      recommendInternship lem idf' nf' draws' st interns n ∧
    (∀ out, recommendInternship lem idf nf draws st interns n = .ok out →
      out.Pairwise (fun a b => b.1 ≤ a.1)) := by
  have hmap : exceptMapM fallbackBody interns =
      .ok (interns.map fallbackTripleP) :=
    exceptMapM_eq_map (fun it hit => fallbackBody_eq_ok (hwf it hit))
  have hspec : interns.map fallbackTripleP = interns.map (fun it =>
      (0.5 * (numOf it.popularity / 100) + 0.3 * (numOf it.rating / 5) +
        0.2 * (numOf it.company_prestige / 10), it,
        "Recommended based on general popularity and ratings.")) :=
    List.map_congr_left (fun it _ => by
      unfold fallbackTripleP
      rw [Prod.ext_iff]
      exact ⟨by ring, rfl⟩)
  have h1 : recommendInternship lem idf nf draws st interns n =
      .ok ((List.insertionSort descByScore (interns.map (fun it =>
        (0.5 * (numOf it.popularity / 100) + 0.3 * (numOf it.rating / 5) +
          0.2 * (numOf it.company_prestige / 10), it,
          "Recommended based on general popularity and ratings.")))).take n) := by
    rw [rank_fallback_result hne hq hmap, hspec]
  refine ⟨h1, ?_, ?_⟩
  · rw [rank_fallback_result hne hq hmap,
      rank_fallback_result hne hq hmap]
  · intro out h
    have hox := h1.symm.trans h
    injection hox with h2
    subst h2
    exact (List.sorted_insertionSort descByScore _).sublist
      (List.take_sublist _ _)

/-- Witness for C2: two candidates, empty resume text; the result does
not depend on the idf, norm, or draw parameters. -/
theorem c2_fallback_path_witness :
    ([internA, internB] ≠ ([] : List Intern)) ∧
    stripIsEmpty (preprocess lem0 (buildQueryRaw stuF)) = true ∧
    recommendInternship lem0 idf0 nf0 draws0 stuF [internA, internB] 5 =
      recommendInternship lem0 (fun _ _ => 5) (fun _ => 2) draws1 stuF
        [internA, internB] 5 := by
  refine ⟨by decide, by decide, ?_⟩
  exact (c2_fallback_path lem0 idf0 (fun _ _ => 5) nf0 (fun _ => 2) draws0
    draws1 stuF [internA, internB] 5 (by decide) (by decide) (by decide)).2.1

/-! ### Claim C10: the fallback path is deterministic and stable -/

/-- Descending order by fallback score on index-tagged triples. -/
def tagRel (a b : ℕ × (ℚ × Intern × String)) : Prop := b.2.1 ≤ a.2.1

instance : DecidableRel tagRel := fun a b => by
  unfold tagRel; infer_instance

/-- Claim C10: on the fallback path the engine is fully deterministic —
the random draws are never consulted — and the sort is stable: the
output is the stable descending sort of the index-tagged fallback
triples, and any two candidates with equal fallback scores keep their
original relative input order. -/
theorem c10_fallback_stability (lem : List Char → List Char)
    (idf : ℕ → ℕ → ℚ) (nf : List ℚ → ℚ) (draws : ℕ → ℚ) (st : Student)
    (interns : List Intern) (n : ℕ)
    (hne : interns ≠ [])
    (hq : stripIsEmpty (preprocess lem (buildQueryRaw st)) = true)
    (hwf : ∀ it ∈ interns, WF it) :
    (∀ draws', recommendInternship lem idf nf draws st interns n =
      recommendInternship lem idf nf draws' st interns n) ∧
    recommendInternship lem idf nf draws st interns n =
      .ok (((List.insertionSort tagRel
        ((interns.map fallbackTripleP).enum)).map Prod.snd).take n) ∧
    (∀ a b, List.Sublist [a, b] ((interns.map fallbackTripleP).enum) →
      a.2.1 = b.2.1 →
      List.Sublist [a, b] (List.insertionSort tagRel
        ((interns.map fallbackTripleP).enum))) := by
  have hmap : exceptMapM fallbackBody interns =
      .ok (interns.map fallbackTripleP) :=
    exceptMapM_eq_map (fun it hit => fallbackBody_eq_ok (hwf it hit))
  have hbridge : (List.insertionSort tagRel
        ((interns.map fallbackTripleP).enum)).map Prod.snd =
      List.insertionSort descByScore (interns.map fallbackTripleP) := by
    rw [List.map_insertionSort tagRel descByScore Prod.snd _
      (fun a _ b _ => Iff.rfl), List.enum_map_snd]
  refine ⟨?_, ?_, ?_⟩
  · intro draws'
    rw [rank_fallback_result hne hq hmap, rank_fallback_result hne hq hmap]
  · rw [rank_fallback_result hne hq hmap, hbridge]
  · intro a b hsub heq
    exact List.pair_sublist_insertionSort (le_of_eq heq.symm) hsub

/-- Candidate used by the C10 witness: fallback score 1/4. -/
def internT1 : Intern :=
  ⟨"t one", "", "", some (PyVal.num 50), some (PyVal.num 0),
    some (PyVal.num 0), some (PyVal.num 1)⟩

/-- Second candidate of the C10 witness, same fallback score 1/4. -/
def internT2 : Intern :=
  ⟨"t two", "", "", some (PyVal.num 50), some (PyVal.num 0),
    some (PyVal.num 0), some (PyVal.num 2)⟩

/-- Witness for C10: two candidates with tied fallback scores keep their
input order in the sorted list, and the draws do not matter. -/
theorem c10_fallback_stability_witness :
    recommendInternship lem0 idf0 nf0 draws0 stuF [internT1, internT2] 5 =
      recommendInternship lem0 idf0 nf0 draws1 stuF [internT1, internT2] 5 ∧
    List.Sublist
      [(0, fallbackTripleP internT1), (1, fallbackTripleP internT2)]
      (List.insertionSort tagRel
        (([internT1, internT2].map fallbackTripleP).enum)) := by
  constructor
  · exact (c10_fallback_stability lem0 idf0 nf0 draws0 stuF
      [internT1, internT2] 5 (by decide) (by decide) (by decide)).1 draws1
  · have henum : (([internT1, internT2].map fallbackTripleP).enum) =
        [(0, fallbackTripleP internT1), (1, fallbackTripleP internT2)] := rfl
    refine (c10_fallback_stability lem0 idf0 nf0 draws0 stuF
      [internT1, internT2] 5 (by decide) (by decide) (by decide)).2.2 _ _
      (henum ▸ List.Sublist.refl _) ?_
    with_unfolding_all decide

/-! ### Claim C5: idempotence of the normalizer -/

theorem splitRunsAux_ne_nil (p : Char → Bool) (cs : List Char) :
    splitRunsAux p cs ≠ [] := by
  induction cs with
  | nil => simp [splitRunsAux]
  | cons c cs ih =>
    simp only [splitRunsAux]
    cases h : splitRunsAux p cs with
    | nil => simp
    | cons w ws => by_cases hp : p c <;> simp [hp]

theorem splitRunsAux_append {p : Char → Bool} {w cs x : List Char}
    {xs : List (List Char)} (hw : ∀ c ∈ w, p c = true)
    (h : splitRunsAux p cs = x :: xs) :
    splitRunsAux p (w ++ cs) = (w ++ x) :: xs := by
  induction w with
  | nil => simpa using h
  | cons c w' ih =>
    have hc : p c = true := hw c (List.mem_cons_self _ _)
    have ih' := ih (fun d hd => hw d (List.mem_cons_of_mem _ hd))
    simp only [List.cons_append, splitRunsAux]
    rw [show splitRunsAux p (w'.append cs) = (w' ++ x) :: xs from ih']
    simp [hc]

theorem splitRuns_joinWords {p : Char → Bool} (hsp : p ' ' = false)
    {ws : List (List Char)}
    (h : ∀ w ∈ ws, w ≠ [] ∧ ∀ c ∈ w, p c = true) :
    splitRuns p (joinWords ws) = ws := by
  induction ws with
  | nil => rfl
  | cons w ws ih =>
    cases ws with
    | nil =>
      obtain ⟨hne, hw⟩ := h w (List.mem_cons_self _ _)
      have h0 : splitRunsAux p ([] : List Char) = [] :: [] := rfl
      have h1 : splitRunsAux p (w ++ []) = (w ++ []) :: [] :=
        splitRunsAux_append hw h0
      rw [List.append_nil] at h1
      show splitRuns p w = [w]
      unfold splitRuns
      rw [h1]
      simp [hne]
    | cons w' ws' =>
      obtain ⟨hne, hw⟩ := h w (List.mem_cons_self _ _)
      have hrest := ih (fun x hx => h x (List.mem_cons_of_mem _ hx))
      cases h2 : splitRunsAux p (joinWords (w' :: ws')) with
      | nil => exact absurd h2 (splitRunsAux_ne_nil p _)
      | cons y ys =>
        have h3 : splitRunsAux p (' ' :: joinWords (w' :: ws')) =
            [] :: y :: ys := by
          simp only [splitRunsAux]
          rw [h2]
          simp [hsp]
        have h4 : splitRunsAux p (w ++ ' ' :: joinWords (w' :: ws')) =
            (w ++ []) :: y :: ys := splitRunsAux_append hw h3
        rw [List.append_nil] at h4
        show splitRuns p (w ++ ' ' :: joinWords (w' :: ws')) = w :: w' :: ws'
        unfold splitRuns
        rw [h4]
        unfold splitRuns at hrest
        rw [h2] at hrest
        rw [List.filter_cons_of_pos (by simp [hne]), hrest]

theorem map_toLower_joinWords {ws : List (List Char)}
    (h : ∀ w ∈ ws, w.map Char.toLower = w) :
    (joinWords ws).map Char.toLower = joinWords ws := by
  induction ws with
  | nil => rfl
  | cons w ws ih =>
    cases ws with
    | nil => exact h w (List.mem_cons_self _ _)
    | cons w' ws' =>
      show (w ++ ' ' :: joinWords (w' :: ws')).map Char.toLower =
        w ++ ' ' :: joinWords (w' :: ws')
      rw [List.map_append, List.map_cons,
        h w (List.mem_cons_self _ _),
        ih (fun x hx => h x (List.mem_cons_of_mem _ hx)),
        show Char.toLower ' ' = ' ' from by decide]

theorem goodToken_props {w : List Char} (h : goodToken w = true) :
    w ≠ [] ∧ ∀ c ∈ w, (!(c == ' ')) = true := by
  simp only [goodToken, Bool.and_eq_true] at h
  obtain ⟨⟨⟨hA, _⟩, _⟩, _⟩ := h
  simp only [pyIsAlnum, Bool.and_eq_true] at hA
  obtain ⟨hne, hall⟩ := hA
  constructor
  · intro hnil
    subst hnil
    simp at hne
  · intro c hc
    have hcal : c.isAlphanum = true := by
      have := List.all_eq_true.1 hall c hc
      simpa using this
    by_cases hsp : c = ' '
    · subst hsp
      exact absurd hcal (by decide)
    · simp [hsp]

theorem preprocessTokens_joinWords (lem : List Char → List Char)
    (ws : List (List Char))
    (h : ∀ w ∈ ws, goodToken w = true ∧ w.map Char.toLower = w ∧
      lem w = w) :
    preprocessTokens lem (joinWords ws) = ws := by
  unfold preprocessTokens
  rw [map_toLower_joinWords (fun w hw => (h w hw).2.1)]
  rw [splitRuns_joinWords (by decide) (fun w hw =>
    ⟨(goodToken_props (h w hw).1).1, fun c hc =>
      (goodToken_props (h w hw).1).2 c hc⟩)]
  rw [List.filter_eq_self.2 (fun w hw => (h w hw).1)]
  rw [List.map_congr_left (fun w hw => (h w hw).2.2), List.map_id']

/-- Claim C5, amended: the normalizer is idempotent provided the
lemmatizer sends every filter-surviving token to a lemma that itself
survives the filter, is lowercase-stable, and is a fixed point of the
lemmatizer.  (The WordNet lemmatizer violates the proviso — see the
counterexample — so the claim does not hold unconditionally.) -/
theorem c5_normalize_idempotent (lem : List Char → List Char)
    (hlem : ∀ w, goodToken w = true → goodToken (lem w) = true ∧
      (lem w).map Char.toLower = lem w ∧ lem (lem w) = lem w)
    (s : String) :
    preprocess lem (preprocess lem s) = preprocess lem s := by
  have hWs : ∀ w ∈ preprocessTokens lem s.data, goodToken w = true ∧
      w.map Char.toLower = w ∧ lem w = w := by
    intro w hw
    unfold preprocessTokens at hw
    rcases List.mem_map.1 hw with ⟨w₀, hw₀, rfl⟩
    have hg : goodToken w₀ = true := List.of_mem_filter hw₀
    exact hlem w₀ hg
  have hstep : preprocess lem (preprocess lem s) = String.mk (joinWords
      (preprocessTokens lem (joinWords (preprocessTokens lem s.data)))) := rfl
  rw [hstep, preprocessTokens_joinWords lem _ hWs]
  rfl

/-- Lemmatizer model for the C5 counterexample: the WordNet lemmatizer
maps "oxen" to its dictionary base form "ox" (all other tokens kept, as
far as this input is concerned). -/
def lemOx : List Char → List Char :=
  fun w => if w = "oxen".data then "ox".data else w

/-- Counterexample to C5 as stated: normalize("oxen") = "ox" (the token
survives the filter, then is lemmatized to "ox"), but a second
normalization drops "ox" because its length is not greater than 2, so
normalize(normalize("oxen")) = "" differs from normalize("oxen"). -/
theorem c5_counterexample :
    preprocess lemOx (preprocess lemOx "oxen") ≠ preprocess lemOx "oxen" := by
  with_unfolding_all decide

/-- Constant lemmatizer used by the C5 witness. -/
def lemAbc : List Char → List Char := fun _ => "abc".data

/-- Witness for C5 at a concrete lemmatizer satisfying the proviso and a
concrete text. -/
theorem c5_normalize_idempotent_witness :
    preprocess lemAbc (preprocess lemAbc "hello world") =
      preprocess lemAbc "hello world" ∧
    preprocess lemAbc "hello world" = "abc abc" := by
  constructor
  · exact c5_normalize_idempotent lemAbc
      (fun w _ => ⟨(by decide : goodToken "abc".data = true),
        (by decide : List.map Char.toLower "abc".data = "abc".data),
        rfl⟩) "hello world"
  · with_unfolding_all decide

/-! ### Claim C1: the blended score -/

/-- Maximum stipend as the spec words it: the maximum compensation value
across all candidates of the call (missing read as 0), treated as 1 when
the true maximum is 0. -/
def specMaxStipend (interns : List Intern) : ℚ :=
  match interns.map (fun it => numOf it.stipend) with
  | [] => 1
  | v :: vs => if vs.foldl max v = 0 then 1 else vs.foldl max v

/-- Default record used with `List.getD`. -/
def dfltIntern : Intern := ⟨"", "", "", none, none, none, none⟩

/-- Default output triple used with `List.getD`. -/
def dflt3 : ℚ × Intern × String := (0, dfltIntern, "")

theorem maxStipend_eq_ok {interns : List Intern}
    (hwf : ∀ it ∈ interns, WF it) :
    maxStipend interns = .ok (specMaxStipend interns) := by
  unfold maxStipend specMaxStipend
  rw [exceptMapM_eq_map (fun it hit => numField_eq_ok (hwf it hit).2.2.2),
    except_bind_ok]
  cases hm : interns.map (fun it => numOf it.stipend) with
  | nil =>
    show (pure (if (1 : ℚ) = 0 then 1 else 1) : Except String ℚ) =
      Except.ok 1
    rw [ite_self]
    rfl
  | cons v vs => rfl

theorem specMaxStipend_ne_zero (interns : List Intern) :
    specMaxStipend interns ≠ 0 := by
  unfold specMaxStipend
  cases interns.map (fun it => numOf it.stipend) with
  | nil => exact one_ne_zero
  | cons v vs =>
    by_cases h : vs.foldl max v = 0
    · simp [h]
    · simp [h]

theorem foldl_max_zero {v : ℚ} {vs : List ℚ} (hv : v = 0)
    (h : ∀ x ∈ vs, x = 0) : vs.foldl max v = 0 := by
  induction vs generalizing v with
  | nil => exact hv
  | cons x t ih =>
    have hx : x = 0 := h x (List.mem_cons_self _ _)
    exact ih (by rw [hv, hx]; exact max_self 0)
      (fun y hy => h y (List.mem_cons_of_mem _ hy))

theorem specMaxStipend_of_all_zero {interns : List Intern}
    (h0 : ∀ it ∈ interns, numOf it.stipend = 0) :
    specMaxStipend interns = 1 := by
  unfold specMaxStipend
  cases hm : interns.map (fun it => numOf it.stipend) with
  | nil => rfl
  | cons v vs =>
    have hall : ∀ x ∈ v :: vs, x = 0 := by
      intro x hx
      rw [← hm] at hx
      rcases List.mem_map.1 hx with ⟨it, hit, rfl⟩
      exact h0 it hit
    show (if vs.foldl max v = 0 then (1:ℚ) else vs.foldl max v) = 1
    rw [if_pos (foldl_max_zero (hall v (List.mem_cons_self _ _))
      (fun x hx => hall x (List.mem_cons_of_mem _ hx)))]

theorem getD_map_of_lt {α β : Type} (f : α → β) (l : List α) (i : ℕ)
    (d : α) (d' : β) (h : i < l.length) :
    (l.map f).getD i d' = f (l.getD i d) := by
  rw [List.getD_eq_getElem?_getD, List.getD_eq_getElem?_getD,
    List.getElem?_map, List.getElem?_eq_getElem h]
  rfl

theorem enum_getD_of_lt {α : Type} (l : List α) (i : ℕ) (d : ℕ × α)
    (h : i < l.length) :
    l.enum.getD i d = (i, l.getD i d.2) := by
  rw [List.getD_eq_getElem?_getD, List.getElem?_enum,
    List.getElem?_eq_getElem h, List.getD_eq_getElem?_getD,
    List.getElem?_eq_getElem h]
  rfl

theorem tfidfFit_ok_rows_length {idf : ℕ → ℕ → ℚ} {nf : List ℚ → ℚ}
    {corpus : List String} {V : List String} {R : List (List ℚ)}
    (h : tfidfFit idf nf corpus = .ok (V, R)) : R.length = corpus.length := by
  unfold tfidfFit at h
  by_cases hv : (fitVocab (analyzedCorpus corpus)).isEmpty = true
  · rw [if_pos hv] at h; cases h
  · rw [if_neg hv] at h
    injection h with h1
    injection h1 with h2 h3
    rw [← h3, List.length_map]
    unfold analyzedCorpus
    rw [List.length_map]

theorem vectorBody_eq_ok {nf : List ℚ → ℚ} {ms : ℚ} {qv : List ℚ}
    {dvs : List (List ℚ)} {names : List String} {p : ℕ × Intern}
    (h : WF p.2) :
    vectorBody nf ms qv dvs names p = .ok
      ((dvs.map (fun dv => cosineSimilarity nf qv dv)).getD p.1 0 * 0.55 +
        (numOf p.2.popularity / 100) * 0.15 +
        min (numOf p.2.stipend / ms) 1 * 0.15 +
        (numOf p.2.rating / 5) * 0.10 +
        (numOf p.2.company_prestige / 10) * 0.05,
       p.2,
       String.intercalate "\n" (explanationLines p.2
         ((dvs.map (fun dv => cosineSimilarity nf qv dv)).getD p.1 0)
         (get_top_contributing_terms qv (dvs.getD p.1 []) names 3))) := by
  obtain ⟨h1, h2, h3, h4⟩ := h
  simp only [vectorBody, blendedScore]
  rw [numField_eq_ok h1, except_bind_ok, numField_eq_ok h4, except_bind_ok,
    numField_eq_ok h2, except_bind_ok, numField_eq_ok h3, except_bind_ok]
  rfl

/-- Claim C1: on the vector-space path (non-empty normalized query,
non-degenerate vocabulary, well-formed numeric fields) the score the
engine assigns to the i-th candidate is exactly 0.55*sim + 0.15*(popularity/100)
+ 0.15*min(stipend/maxStipend, 1) + 0.10*(rating/5) + 0.05*(prestige/10),
where maxStipend is the maximum stipend across all candidates in the
call, replaced by 1 when that maximum is 0; that divisor is never 0, and
when every candidate has stipend 0 the stipend term contributes exactly
0 for every candidate. -/
theorem c1_blended_score (lem : List Char → List Char) (idf : ℕ → ℕ → ℚ)
    (nf : List ℚ → ℚ) (st : Student) (interns : List Intern)
    (names : List String) (rows : List (List ℚ))
    (hne : interns ≠ [])
    (hwf : ∀ it ∈ interns, WF it)
    (hq : stripIsEmpty (preprocess lem (buildQueryRaw st)) = false)
    (hfit : tfidfFit idf nf (buildDocs lem interns ++
      [preprocess lem (buildQueryRaw st)]) = .ok (names, rows)) :
    specMaxStipend interns ≠ 0 ∧
    ∃ l, vectorTriples idf nf (preprocess lem (buildQueryRaw st))
        (buildDocs lem interns) interns = .ok l ∧
      (∀ draws n, recommendInternship lem idf nf draws st interns n =
        .ok (((List.insertionSort descByKey (decorate draws l)).map
          Prod.fst).take n)) ∧
      l.length = interns.length ∧
      (∀ i, i < interns.length →
        (l.getD i dflt3).1 =
          0.55 * cosineSimilarity nf (rows.getLast?.getD [])
              (rows.dropLast.getD i []) +
          0.15 * (numOf (interns.getD i dfltIntern).popularity / 100) +
          0.15 * min (numOf (interns.getD i dfltIntern).stipend /
            specMaxStipend interns) 1 +
          0.10 * (numOf (interns.getD i dfltIntern).rating / 5) +
          0.05 * (numOf (interns.getD i dfltIntern).company_prestige / 10)) ∧
      ((∀ it ∈ interns, numOf it.stipend = 0) →
        specMaxStipend interns = 1 ∧
        ∀ i, i < interns.length →
          min (numOf (interns.getD i dfltIntern).stipend /
            specMaxStipend interns) 1 = 0) := by
  refine ⟨specMaxStipend_ne_zero interns, ?_⟩
  have hrows : rows.length = interns.length + 1 := by
    rw [tfidfFit_ok_rows_length hfit, List.length_append]
    unfold buildDocs
    rw [List.length_map]
    rfl
  have hdvs : rows.dropLast.length = interns.length := by
    rw [List.length_dropLast, hrows]
    rfl
  have hv : vectorTriples idf nf (preprocess lem (buildQueryRaw st))
      (buildDocs lem interns) interns = .ok (interns.enum.map (fun p =>
        ((rows.dropLast.map (fun dv => cosineSimilarity nf
            (rows.getLast?.getD []) dv)).getD p.1 0 * 0.55 +
          (numOf p.2.popularity / 100) * 0.15 +
          min (numOf p.2.stipend / specMaxStipend interns) 1 * 0.15 +
          (numOf p.2.rating / 5) * 0.10 +
          (numOf p.2.company_prestige / 10) * 0.05,
         p.2,
         String.intercalate "\n" (explanationLines p.2
           ((rows.dropLast.map (fun dv => cosineSimilarity nf
             (rows.getLast?.getD []) dv)).getD p.1 0)
           (get_top_contributing_terms (rows.getLast?.getD [])
             (rows.dropLast.getD p.1 []) names 3))))) :=
    vectorTriples_eq hfit (maxStipend_eq_ok hwf)
      (exceptMapM_eq_map (fun p hp =>
        vectorBody_eq_ok (hwf p.2 (enum_snd_mem hp))))
  refine ⟨_, hv, ?_, ?_, ?_, ?_⟩
  · intro draws n
    exact rank_vector_result hne hq hv
  · rw [List.length_map, List.enum_length]
  · intro i hi
    have hienum : i < interns.enum.length := by
      rw [List.enum_length]; exact hi
    rw [getD_map_of_lt _ _ _ (0, dfltIntern) _ hienum,
      enum_getD_of_lt _ _ _ hi]
    have hsim : (rows.dropLast.map (fun dv => cosineSimilarity nf
        (rows.getLast?.getD []) dv)).getD i 0 =
        cosineSimilarity nf (rows.getLast?.getD [])
          (rows.dropLast.getD i []) := by
      rw [getD_map_of_lt _ _ _ [] _ (by rw [hdvs]; exact hi)]
    rw [hsim]
    ring
  · intro h0
    refine ⟨specMaxStipend_of_all_zero h0, ?_⟩
    intro i hi
    have hmem : interns.getD i dfltIntern ∈ interns := by
      rw [List.getD_eq_getElem?_getD, List.getElem?_eq_getElem hi]
      exact List.getElem_mem _
    rw [h0 _ hmem, specMaxStipend_of_all_zero h0]
    norm_num

/-- Witness for C1 at a concrete input: resume "alpha beta" against two
candidates whose documents share its vocabulary. -/
theorem c1_blended_score_witness :
    specMaxStipend [internA, internB] ≠ 0 ∧
    ∃ l, vectorTriples idf0 nf0 (preprocess lem0 (buildQueryRaw stuA))
        (buildDocs lem0 [internA, internB]) [internA, internB] = .ok l ∧
      (∀ draws n, recommendInternship lem0 idf0 nf0 draws stuA
          [internA, internB] n =
        .ok (((List.insertionSort descByKey (decorate draws l)).map
          Prod.fst).take n)) ∧
      l.length = ([internA, internB] : List Intern).length ∧
      (∀ i, i < ([internA, internB] : List Intern).length →
        (l.getD i dflt3).1 =
          0.55 * cosineSimilarity nf0
              (([[2,2,2],[1,1,1],[1,1,1]] : List (List ℚ)).getLast?.getD [])
              (([[2,2,2],[1,1,1],[1,1,1]] :
                List (List ℚ)).dropLast.getD i []) +
          0.15 * (numOf (([internA, internB] :
            List Intern).getD i dfltIntern).popularity / 100) +
          0.15 * min (numOf (([internA, internB] :
            List Intern).getD i dfltIntern).stipend /
            specMaxStipend [internA, internB]) 1 +
          0.10 * (numOf (([internA, internB] :
            List Intern).getD i dfltIntern).rating / 5) +
          0.05 * (numOf (([internA, internB] :
            List Intern).getD i dfltIntern).company_prestige / 10)) ∧
      ((∀ it ∈ ([internA, internB] : List Intern), numOf it.stipend = 0) →
        specMaxStipend [internA, internB] = 1 ∧
        ∀ i, i < ([internA, internB] : List Intern).length →
          min (numOf (([internA, internB] :
            List Intern).getD i dfltIntern).stipend /
            specMaxStipend [internA, internB]) 1 = 0) := by
  have hC : buildDocs lem0 [internA, internB] ++
      [preprocess lem0 (buildQueryRaw stuA)] =
      ["alpha beta alpha beta", "alpha beta", "alpha beta"] := by
    with_unfolding_all decide
  have hfit : tfidfFit idf0 nf0 (buildDocs lem0 [internA, internB] ++
      [preprocess lem0 (buildQueryRaw stuA)]) =
      .ok (["alpha", "alpha beta", "beta"],
        [[2,2,2],[1,1,1],[1,1,1]]) := by
    rw [hC]
    exact tfidfFit_eq_ok (by with_unfolding_all decide) (by decide)
      (by with_unfolding_all decide)
  exact c1_blended_score lem0 idf0 nf0 stuA [internA, internB]
    ["alpha", "alpha beta", "beta"] [[2,2,2],[1,1,1],[1,1,1]]
    (by decide) (by decide) (by with_unfolding_all decide) hfit

/-! ### Claim C8: determinism and isolation of the randomness -/

theorem exceptMapM_nil_ok {α β : Type} (f : α → Except String β) :
    exceptMapM f [] = .ok [] := rfl

theorem exceptMapM_cons_ok {α β : Type} {f : α → Except String β} {a : α}
    {l : List α} {b : β} {rest : List β} (ha : f a = .ok b)
    (hl : exceptMapM f l = .ok rest) :
    exceptMapM f (a :: l) = .ok (b :: rest) := by
  unfold exceptMapM
  rw [ha, except_bind_ok, hl, except_bind_ok]
  rfl

theorem pairwise_enumFrom {α : Type} {R : α → α → Prop} {l : List α}
    (h : l.Pairwise R) (n : ℕ) :
    (l.enumFrom n).Pairwise (fun a b => R a.2 b.2) := by
  induction l generalizing n with
  | nil => exact List.Pairwise.nil
  | cons a t ih =>
    rw [List.enumFrom_cons]
    rcases List.pairwise_cons.1 h with ⟨ha, ht⟩
    refine List.pairwise_cons.2 ⟨?_, ih ht (n + 1)⟩
    intro p hp
    have hp2 := List.mem_map_of_mem Prod.snd hp
    rw [List.enumFrom_map_snd] at hp2
    exact ha p.2 hp2

theorem pairwise_decorate {draws : ℕ → ℚ} {l : List (ℚ × Intern × String)}
    {R : (ℚ × Intern × String) → (ℚ × Intern × String) → Prop}
    (h : l.Pairwise R) :
    (decorate draws l).Pairwise (fun a b => R a.1 b.1) := by
  unfold decorate
  exact (pairwise_enumFrom h 0).map _ (fun a b hab => hab)

theorem decorate_map_fst (draws : ℕ → ℚ) (l : List (ℚ × Intern × String)) :
    (decorate draws l).map Prod.fst = l := by
  unfold decorate
  rw [List.map_map]
  exact List.enum_map_snd l

theorem isort_decorate_fst {draws : ℕ → ℚ} {l : List (ℚ × Intern × String)}
    (hd : l.Pairwise (fun a b => a.1 ≠ b.1)) :
    (List.insertionSort descByKey (decorate draws l)).map Prod.fst =
      List.insertionSort descByScore l := by
  have hp : (decorate draws l).Pairwise (fun a b => a.1.1 ≠ b.1.1) :=
    pairwise_decorate hd
  have hiff : ∀ a ∈ decorate draws l, ∀ b ∈ decorate draws l,
      descByKey a b ↔ descByScore a.1 b.1 := by
    intro a ha b hb
    by_cases hab : a.1.1 = b.1.1
    · have hab2 : a = b := by
        by_contra hne
        exact (hp.forall (fun x y hxy => Ne.symm hxy) ha hb hne) hab
      subst hab2
      exact iff_of_true (Or.inr ⟨rfl, le_refl _⟩) (le_refl _)
    · unfold descByKey descByScore
      constructor
      · rintro (h1 | ⟨h1, _⟩)
        · exact le_of_lt h1
        · exact absurd h1.symm hab
      · intro h1
        exact Or.inl (lt_of_le_of_ne h1 (fun he => hab he.symm))
  rw [List.map_insertionSort descByKey descByScore Prod.fst _ hiff,
    decorate_map_fst]

/-- Claim C8, amended: once the ambient draw stream is fixed the engine
is deterministic — identical draws give identical output — and the
draws influence nothing but the tie-break: whenever the blended scores
are pairwise distinct, any two draw streams produce identical ordered
output.  The `draws` parameter models the state of the ambient global
random module; `recommendInternship` itself exposes no injectable
randomness source, so with only its declared arguments fixed, tied
candidates can be returned in different orders (see the
counterexample). -/
theorem c8_tie_break_randomness (lem : List Char → List Char) (idf : ℕ → ℕ → ℚ)
    (nf : List ℚ → ℚ) (st : Student) (interns : List Intern) (n : ℕ)
    (l : List (ℚ × Intern × String))
    (hv : vectorTriples idf nf (preprocess lem (buildQueryRaw st))
      (buildDocs lem interns) interns = .ok l)
    (hd : l.Pairwise (fun a b => a.1 ≠ b.1)) :
    (∀ d₁ d₂ : ℕ → ℚ, (∀ i, d₁ i = d₂ i) →
      recommendInternship lem idf nf d₁ st interns n =
        recommendInternship lem idf nf d₂ st interns n) ∧
    (∀ d₁ d₂ : ℕ → ℚ,
      recommendInternship lem idf nf d₁ st interns n =
        recommendInternship lem idf nf d₂ st interns n) := by
  constructor
  · intro d₁ d₂ hdd
    by_cases hne : interns = []
    · subst hne
      rw [rank_nil, rank_nil]
    · by_cases hq : stripIsEmpty (preprocess lem (buildQueryRaw st)) = true
      · rw [rank_fallback_eq hne hq, rank_fallback_eq hne hq]
      · have hq' : stripIsEmpty (preprocess lem (buildQueryRaw st)) = false :=
          Bool.not_eq_true _ ▸ hq
        rw [rank_vector_eq hne hq', rank_vector_eq hne hq']
        cases vectorTriples idf nf (preprocess lem (buildQueryRaw st))
            (buildDocs lem interns) interns with
        | error e => rfl
        | ok s =>
          have : decorate d₁ s = decorate d₂ s := by
            unfold decorate
            exact List.map_congr_left (fun p _ => by rw [hdd p.1])
          rw [except_map_ok, except_map_ok, this]
  · intro d₁ d₂
    by_cases hne : interns = []
    · subst hne
      rw [rank_nil, rank_nil]
    · by_cases hq : stripIsEmpty (preprocess lem (buildQueryRaw st)) = true
      · rw [rank_fallback_eq hne hq, rank_fallback_eq hne hq]
      · have hq' : stripIsEmpty (preprocess lem (buildQueryRaw st)) = false :=
          Bool.not_eq_true _ ▸ hq
        rw [rank_vector_result hne hq' hv, rank_vector_result hne hq' hv,
          isort_decorate_fst hd, isort_decorate_fst hd]

theorem vectorBody_eval {nf : List ℚ → ℚ} {ms : ℚ} {qv : List ℚ}
    {dvs : List (List ℚ)} {names : List String} {i : ℕ} {it : Intern}
    {sim score : ℚ} {terms : List String} {expl : String}
    (hsim : (dvs.map (fun dv => cosineSimilarity nf qv dv)).getD i 0 = sim)
    (hsc : blendedScore sim ms it = .ok score)
    (hterms : get_top_contributing_terms qv (dvs.getD i []) names 3 = terms)
    (hexp : String.intercalate "\n" (explanationLines it sim terms) = expl) :
    vectorBody nf ms qv dvs names (i, it) = .ok (score, it, expl) := by
  simp only [vectorBody]
  rw [hsim, hsc, except_bind_ok, hterms, hexp]
  rfl

/-- Vector-space triples produced for the witness input (resume "alpha
beta" against `internA` and `internB`). -/
def vt1 : List (ℚ × Intern × String) :=
  [(361/100, internA,
    "• Keyword Match: beta, alpha beta, alpha\n• Similarity Score: 6.000\n• Popularity Score: 80/100\n• Prestige Score: 7/10"),
   (83/40, internB,
    "• Keyword Match: beta, alpha beta, alpha\n• Similarity Score: 3.000\n• Popularity Score: 90/100\n• Prestige Score: 8/10")]

/-- Fit of the witness corpus, assembled stagewise. -/
theorem tfidfFit_AB : tfidfFit idf0 nf0 (buildDocs lem0 [internA, internB]
    ++ [preprocess lem0 (buildQueryRaw stuA)]) =
    .ok (["alpha", "alpha beta", "beta"], [[2,2,2],[1,1,1],[1,1,1]]) := by
  rw [show buildDocs lem0 [internA, internB] ++
      [preprocess lem0 (buildQueryRaw stuA)] =
      ["alpha beta alpha beta", "alpha beta", "alpha beta"] from by
    with_unfolding_all decide]
  exact tfidfFit_eq_ok (by with_unfolding_all decide) (by decide)
    (by with_unfolding_all decide)

/-- Vector-space triples of the witness input, assembled stagewise. -/
theorem vectorTriples_AB :
    vectorTriples idf0 nf0 (preprocess lem0 (buildQueryRaw stuA))
      (buildDocs lem0 [internA, internB]) [internA, internB] = .ok vt1 := by
  have hms : maxStipend [internA, internB] = Except.ok 2000 := by
    with_unfolding_all decide
  refine vectorTriples_eq tfidfFit_AB hms ?_
  have hsimA : (([[2,2,2],[1,1,1],[1,1,1]] : List (List ℚ)).dropLast.map
      (fun dv => cosineSimilarity nf0
        (([[2,2,2],[1,1,1],[1,1,1]] : List (List ℚ)).getLast?.getD [])
        dv)).getD 0 0 = 6 := by
    with_unfolding_all decide
  have hsimB : (([[2,2,2],[1,1,1],[1,1,1]] : List (List ℚ)).dropLast.map
      (fun dv => cosineSimilarity nf0
        (([[2,2,2],[1,1,1],[1,1,1]] : List (List ℚ)).getLast?.getD [])
        dv)).getD 1 0 = 3 := by
    with_unfolding_all decide
  have hscA : blendedScore 6 2000 internA = Except.ok (361/100) := by
    with_unfolding_all decide
  have hscB : blendedScore 3 2000 internB = Except.ok (83/40) := by
    with_unfolding_all decide
  have htA : get_top_contributing_terms
      (([[2,2,2],[1,1,1],[1,1,1]] : List (List ℚ)).getLast?.getD [])
      (([[2,2,2],[1,1,1],[1,1,1]] : List (List ℚ)).dropLast.getD 0 [])
      ["alpha", "alpha beta", "beta"] 3 =
      ["beta", "alpha beta", "alpha"] := by
    with_unfolding_all decide
  have htB : get_top_contributing_terms
      (([[2,2,2],[1,1,1],[1,1,1]] : List (List ℚ)).getLast?.getD [])
      (([[2,2,2],[1,1,1],[1,1,1]] : List (List ℚ)).dropLast.getD 1 [])
      ["alpha", "alpha beta", "beta"] 3 =
      ["beta", "alpha beta", "alpha"] := by
    with_unfolding_all decide
  have heA : String.intercalate "\n" (explanationLines internA 6
      ["beta", "alpha beta", "alpha"]) =
      "• Keyword Match: beta, alpha beta, alpha\n• Similarity Score: 6.000\n• Popularity Score: 80/100\n• Prestige Score: 7/10" := by
    with_unfolding_all decide
  have heB : String.intercalate "\n" (explanationLines internB 3
      ["beta", "alpha beta", "alpha"]) =
      "• Keyword Match: beta, alpha beta, alpha\n• Similarity Score: 3.000\n• Popularity Score: 90/100\n• Prestige Score: 8/10" := by
    with_unfolding_all decide
  exact exceptMapM_cons_ok (vectorBody_eval hsimA hscA htA heA)
    (exceptMapM_cons_ok (vectorBody_eval hsimB hscB htB heB)
      (exceptMapM_nil_ok _))

/-- Witness for C8: on the witness input the blended scores are
distinct, so two different draw streams give identical output. -/
theorem c8_tie_break_randomness_witness :
    vectorTriples idf0 nf0 (preprocess lem0 (buildQueryRaw stuA))
      (buildDocs lem0 [internA, internB]) [internA, internB] = .ok vt1 ∧
    vt1.Pairwise (fun a b => a.1 ≠ b.1) ∧
    recommendInternship lem0 idf0 nf0 draws0 stuA [internA, internB] 5 =
      recommendInternship lem0 idf0 nf0 draws1 stuA [internA, internB] 5 := by
  refine ⟨vectorTriples_AB, by with_unfolding_all decide, ?_⟩
  exact (c8_tie_break_randomness lem0 idf0 nf0 stuA [internA, internB] 5 vt1
    vectorTriples_AB (by with_unfolding_all decide)).2 draws0 draws1

/-- Student for the C8 counterexample: resume text "alpha". -/
def stuX : Student := ⟨some "alpha", none⟩

/-- First tied candidate: the description "x" is dropped by the
length-greater-than-2 token filter, so its document is just "alpha". -/
def internX : Intern :=
  ⟨"alpha", "x", "", some (PyVal.num 10), some (PyVal.num 1),
    some (PyVal.num 1), some (PyVal.num 0)⟩

/-- Second tied candidate: identical signals and normalized document,
but a distinct record (description "y"). -/
def internY : Intern :=
  ⟨"alpha", "y", "", some (PyVal.num 10), some (PyVal.num 1),
    some (PyVal.num 1), some (PyVal.num 0)⟩

/-- A second ambient draw stream: the i-th random draw is i. -/
def drawsIdx : ℕ → ℚ := fun i => (i : ℚ)

/-- Vector-space triples of the tied counterexample input: both
candidates receive the same score and explanation. -/
def vt2 : List (ℚ × Intern × String) :=
  [(59/100, internX,
    "• Keyword Match: alpha\n• Similarity Score: 1.000\n• Popularity Score: 10/100\n• Prestige Score: 1/10"),
   (59/100, internY,
    "• Keyword Match: alpha\n• Similarity Score: 1.000\n• Popularity Score: 10/100\n• Prestige Score: 1/10")]

/-- Fit of the counterexample corpus (three copies of "alpha"),
assembled stagewise. -/
theorem tfidfFit_XY : tfidfFit idf0 nf0 (buildDocs lem0 [internX, internY]
    ++ [preprocess lem0 (buildQueryRaw stuX)]) =
    .ok (["alpha"], [[1],[1],[1]]) := by
  rw [show buildDocs lem0 [internX, internY] ++
      [preprocess lem0 (buildQueryRaw stuX)] =
      ["alpha", "alpha", "alpha"] from by
    with_unfolding_all decide]
  exact tfidfFit_eq_ok (by with_unfolding_all decide) (by decide)
    (by with_unfolding_all decide)

/-- Vector-space triples of the counterexample input, assembled
stagewise: the two candidates tie at score 59/100. -/
theorem vectorTriples_XY :
    vectorTriples idf0 nf0 (preprocess lem0 (buildQueryRaw stuX))
      (buildDocs lem0 [internX, internY]) [internX, internY] = .ok vt2 := by
  have hms : maxStipend [internX, internY] = Except.ok 1 := by
    with_unfolding_all decide
  refine vectorTriples_eq tfidfFit_XY hms ?_
  have hsimX : (([[1],[1],[1]] : List (List ℚ)).dropLast.map
      (fun dv => cosineSimilarity nf0
        (([[1],[1],[1]] : List (List ℚ)).getLast?.getD [])
        dv)).getD 0 0 = 1 := by
    with_unfolding_all decide
  have hsimY : (([[1],[1],[1]] : List (List ℚ)).dropLast.map
      (fun dv => cosineSimilarity nf0
        (([[1],[1],[1]] : List (List ℚ)).getLast?.getD [])
        dv)).getD 1 0 = 1 := by
    with_unfolding_all decide
  have hscX : blendedScore 1 1 internX = Except.ok (59/100) := by
    with_unfolding_all decide
  have hscY : blendedScore 1 1 internY = Except.ok (59/100) := by
    with_unfolding_all decide
  have htX : get_top_contributing_terms
      (([[1],[1],[1]] : List (List ℚ)).getLast?.getD [])
      (([[1],[1],[1]] : List (List ℚ)).dropLast.getD 0 [])
      ["alpha"] 3 = ["alpha"] := by
    with_unfolding_all decide
  have htY : get_top_contributing_terms
      (([[1],[1],[1]] : List (List ℚ)).getLast?.getD [])
      (([[1],[1],[1]] : List (List ℚ)).dropLast.getD 1 [])
      ["alpha"] 3 = ["alpha"] := by
    with_unfolding_all decide
  have heX : String.intercalate "\n" (explanationLines internX 1
      ["alpha"]) =
      "• Keyword Match: alpha\n• Similarity Score: 1.000\n• Popularity Score: 10/100\n• Prestige Score: 1/10" := by
    with_unfolding_all decide
  have heY : String.intercalate "\n" (explanationLines internY 1
      ["alpha"]) =
      "• Keyword Match: alpha\n• Similarity Score: 1.000\n• Popularity Score: 10/100\n• Prestige Score: 1/10" := by
    with_unfolding_all decide
  exact exceptMapM_cons_ok (vectorBody_eval hsimX hscX htX heX)
    (exceptMapM_cons_ok (vectorBody_eval hsimY hscY htY heY)
      (exceptMapM_nil_ok _))

/-- Counterexample for C8 as stated: the tie-break randomness is NOT
isolated behind an injectable source — backend.py line 123 reads the
ambient global random module and `recommendInternship(student,
internships, top_n)` accepts no randomness argument.  Concretely, two
calls agreeing on every actual argument of the source function (the
student record, the candidate list, topN) but made under two different
states of the ambient draw stream return the two tied candidates in
different orders, so the result is not a function of the declared
arguments alone. -/
theorem c8_counterexample :
    recommendInternship lem0 idf0 nf0 draws0 stuX [internX, internY] 5 ≠
      recommendInternship lem0 idf0 nf0 drawsIdx stuX [internX, internY] 5 := by
  have hne : ([internX, internY] : List Intern) ≠ [] :=
    List.cons_ne_nil _ _
  have hq : stripIsEmpty (preprocess lem0 (buildQueryRaw stuX)) = false := by
    with_unfolding_all decide
  rw [rank_vector_result hne hq vectorTriples_XY,
    rank_vector_result hne hq vectorTriples_XY]
  with_unfolding_all decide

/-! ### Claim C6: keyword terms of the explanation -/

instance : IsTotal (ℕ × ℚ) npAscRel := by
  constructor
  intro a b
  unfold npAscRel
  rcases lt_trichotomy a.2 b.2 with h | h | h
  · exact Or.inl (Or.inl h)
  · rcases Nat.le_total a.1 b.1 with h2 | h2
    · exact Or.inl (Or.inr ⟨h, h2⟩)
    · exact Or.inr (Or.inr ⟨h.symm, h2⟩)
  · exact Or.inr (Or.inl h)

instance : IsTrans (ℕ × ℚ) npAscRel := by
  constructor
  intro a b c hab hbc
  unfold npAscRel at *
  rcases hab with h₁ | ⟨h₁, h₁'⟩
  · rcases hbc with h₂ | ⟨h₂, h₂'⟩
    · exact Or.inl (lt_trans h₁ h₂)
    · exact Or.inl (lt_of_lt_of_le h₁ (le_of_eq h₂))
  · rcases hbc with h₂ | ⟨h₂, h₂'⟩
    · exact Or.inl (lt_of_le_of_lt (le_of_eq h₁) h₂)
    · exact Or.inr ⟨h₁.trans h₂, le_trans h₁' h₂'⟩

instance : IsTotal (ℕ × ℚ) npDescRel := by
  constructor
  intro a b
  unfold npDescRel
  rcases lt_trichotomy b.2 a.2 with h | h | h
  · exact Or.inl (Or.inl h)
  · rcases Nat.le_total b.1 a.1 with h2 | h2
    · exact Or.inl (Or.inr ⟨h, h2⟩)
    · exact Or.inr (Or.inr ⟨h.symm, h2⟩)
  · exact Or.inr (Or.inl h)

instance : IsTrans (ℕ × ℚ) npDescRel := by
  constructor
  intro a b c hab hbc
  unfold npDescRel at *
  rcases hab with h₁ | ⟨h₁, h₁'⟩
  · rcases hbc with h₂ | ⟨h₂, h₂'⟩
    · exact Or.inl (lt_trans h₂ h₁)
    · exact Or.inl (lt_of_le_of_lt (le_of_eq h₂) h₁)
  · rcases hbc with h₂ | ⟨h₂, h₂'⟩
    · exact Or.inl (lt_of_lt_of_le h₂ (le_of_eq h₁))
    · exact Or.inr ⟨h₂.trans h₁, le_trans h₂' h₁'⟩

instance : IsAntisymm (ℕ × ℚ) npDescRel := by
  constructor
  intro a b hab hba
  unfold npDescRel at *
  rcases hab with h₁ | ⟨h₁, h₁'⟩
  · rcases hba with h₂ | ⟨h₂, h₂'⟩
    · exact absurd h₁ (lt_asymm h₂)
    · exact absurd h₁ (by rw [h₂]; exact lt_irrefl _)
  · rcases hba with h₂ | ⟨h₂, h₂'⟩
    · exact absurd h₂ (by rw [h₁]; exact lt_irrefl _)
    · exact Prod.ext (Nat.le_antisymm h₂' h₁') h₁.symm

/-- Reversing a stable ascending argsort of index-tagged values yields
the descending sort whose ties are in descending index order. -/
theorem isort_asc_reverse (v : List (ℕ × ℚ)) :
    (List.insertionSort npAscRel v).reverse =
      List.insertionSort npDescRel v := by
  refine List.eq_of_perm_of_sorted
    ((List.reverse_perm _).trans ((List.perm_insertionSort _ _).trans
      (List.perm_insertionSort npDescRel v).symm)) ?_
    (List.sorted_insertionSort npDescRel v)
  rw [List.Sorted, List.pairwise_reverse]
  exact (List.sorted_insertionSort npAscRel v).imp (fun {a b} h => h)

/-- Keyword-term selection as claim C6 words it: terms ordered by
descending contribution with ties broken by ASCENDING feature index,
restricted to strictly positive contributions, first three.  (This
definition follows the wording of the claim; the code is compared against
it.) -/
def topTermsSpecAsc (query_vec doc_vec : List ℚ)
    (feature_names : List String) : List String :=
  (((List.insertionSort (fun a b : ℕ × ℚ => b.2 < a.2 ∨ (a.2 = b.2 ∧ a.1 ≤ b.1))
      (List.zipWith (· * ·) query_vec doc_vec).enum).filter
    (fun p => decide (0 < p.2))).map
      (fun p => feature_names.getD p.1 "")).take 3

/-- Claim C6, amended: the keyword terms are the top 3 terms by
elementwise product of the query and candidate weight vectors among the
strictly positive ones, but ties are broken by DESCENDING feature index
(the reversal of a stable ascending argsort), not by ascending vector
order; and the first explanation line is the keyword list when
sim > 0.05 and a contributing term exists, the generic textual-match
line when sim > 0.05 and no contributing term exists, and the
no-strong-match line otherwise. -/
theorem c6_top_terms (qv dv : List ℚ) (names : List String) :
    get_top_contributing_terms qv dv names 3 =
      (((List.insertionSort npDescRel
          (List.zipWith (· * ·) qv dv).enum).filter
        (fun p => decide (0 < p.2))).map
          (fun p => names.getD p.1 "")).take 3 ∧
    (∀ it : Intern, ∀ sim : ℚ, ∀ terms : List String, 0.05 < sim →
      terms ≠ [] → (explanationLines it sim terms).head? =
        some ("• Keyword Match: " ++ String.intercalate ", " terms)) ∧
    (∀ it : Intern, ∀ sim : ℚ, 0.05 < sim →
      (explanationLines it sim []).head? =
        some "• General textual match with your resume.") ∧
    (∀ it : Intern, ∀ sim : ℚ, ∀ terms : List String, ¬ 0.05 < sim →
      (explanationLines it sim terms).head? =
        some "• No strong skill match, ranked by popularity and ratings.") := by
  refine ⟨?_, ?_, ?_, ?_⟩
  · unfold get_top_contributing_terms argsortAsc
    rw [← List.map_reverse, isort_asc_reverse, List.filter_map]
    have hpred : ∀ p ∈ List.insertionSort npDescRel
        (List.zipWith (· * ·) qv dv).enum,
        ((fun i => decide (0 < (List.zipWith (· * ·) qv dv).getD i 0)) ∘
          Prod.fst) p = (fun p : ℕ × ℚ => decide (0 < p.2)) p := by
      intro p hp
      have hp2 : p ∈ (List.zipWith (· * ·) qv dv).enum :=
        (List.mem_insertionSort npDescRel).1 hp
      have hget : (List.zipWith (· * ·) qv dv)[p.1]? = some p.2 :=
        List.mem_enum_iff_getElem?.1 hp2
      show decide (0 < (List.zipWith (· * ·) qv dv).getD p.1 0) =
        decide (0 < p.2)
      rw [List.getD_eq_getElem?_getD, hget]
      rfl
    rw [List.filter_congr hpred, List.map_map]
    rfl
  · intro it sim terms h1 h2
    unfold explanationLines
    rw [if_pos ⟨h1, h2⟩]
    rfl
  · intro it sim h1
    unfold explanationLines
    rw [if_neg (fun h => h.2 rfl), if_pos h1]
    rfl
  · intro it sim terms h1
    unfold explanationLines
    rw [if_neg (fun h => h1 h.1), if_neg h1]
    rfl

/-- Witness for C6 at concrete vectors and a concrete explanation. -/
theorem c6_top_terms_witness :
    get_top_contributing_terms [1, 1, 1] [2, 2, 2]
      ["alpha", "alpha beta", "beta"] 3 =
      (((List.insertionSort npDescRel
          (List.zipWith (· * ·) [1, 1, 1] [2, 2, 2]).enum).filter
        (fun p => decide (0 < p.2))).map
          (fun p => (["alpha", "alpha beta", "beta"] :
            List String).getD p.1 "")).take 3 ∧
    (explanationLines internA 6 ["beta", "alpha beta", "alpha"]).head? =
      some "• Keyword Match: beta, alpha beta, alpha" := by
  constructor
  · exact (c6_top_terms [1, 1, 1] [2, 2, 2] ["alpha", "alpha beta", "beta"]).1
  · have h := (c6_top_terms [1, 1, 1] [2, 2, 2]
      ["alpha", "alpha beta", "beta"]).2.1 internA 6
      ["beta", "alpha beta", "alpha"]
      (by with_unfolding_all decide) (by decide)
    rw [h]
    rfl

/-- Counterexample to C6 as stated: at the query weight vector [1,1,1]
and candidate weight vector [2,2,2] (which the pipeline produces for
resume "alpha beta" against the document "alpha beta alpha beta" — first
conjunct), all three contributions tie, the code lists the terms in
DESCENDING feature order, and the ascending tie-break of the claim predicts
the reverse. -/
theorem c6_counterexample :
    tfidfFit idf0 nf0 ["alpha beta alpha beta", "alpha beta", "alpha beta"] =
      .ok (["alpha", "alpha beta", "beta"], [[2,2,2],[1,1,1],[1,1,1]]) ∧
    get_top_contributing_terms [1, 1, 1] [2, 2, 2]
      ["alpha", "alpha beta", "beta"] 3 = ["beta", "alpha beta", "alpha"] ∧
    topTermsSpecAsc [1, 1, 1] [2, 2, 2] ["alpha", "alpha beta", "beta"] =
      ["alpha", "alpha beta", "beta"] ∧
    get_top_contributing_terms [1, 1, 1] [2, 2, 2]
      ["alpha", "alpha beta", "beta"] 3 ≠
      topTermsSpecAsc [1, 1, 1] [2, 2, 2] ["alpha", "alpha beta", "beta"] := by
  refine ⟨?_, ?_, ?_, ?_⟩
  · exact tfidfFit_eq_ok (by with_unfolding_all decide) (by decide)
      (by with_unfolding_all decide)
  · with_unfolding_all decide
  · with_unfolding_all decide
  · with_unfolding_all decide
